import Mathlib

/-!
Verification development for the Specky Pipeline Orchestration & Quality
Validation Engine.

The definitions below are a shallow embedding of the TypeScript sources:

* `src/lib/spec-engine/validators/completeness.ts` (incompletion-marker
  scanner, `hasIncompleteCode`),
* `src/lib/spec-engine/validators/atomic.ts` (atomic task checker),
* `src/lib/spec-engine/validators/citations.ts` (citation checker),
* `src/lib/spec-engine/validators/index.ts` (`validateSchemas`,
  `validateDag`, `validateAll`),
* `src/lib/spec-engine/agents/base.ts` (retry wrapper),
* `src/lib/spec-engine/orchestrator.ts` (`PipelineOrchestrator`),
* `planning/schemas/*` (data model).

JavaScript strings are modelled as `List Char`; JS numbers that hold scores
are modelled as `Int` (`Math.max`/`Math.min` become `max`/`min`).  Host
primitives that are not part of the repository (the WHATWG `URL` parser,
`Date.parse`, the current clock, `crypto.randomUUID`) are abstracted into a
`JsEnv` record of parameters.  JS regular expressions are embedded by a
small combinator engine (`RE`, `matchAt`) whose backtracking order mirrors
the greedy/leftmost behaviour of the JS engine; the mutable `lastIndex` of
the module-level global regexes of `completeness.ts` is threaded explicitly
as a `RegexSt` value.
-/

namespace Specky

/-- Decidable equality for `Except` results (not provided by core). -/
instance {e a : Type} [DecidableEq e] [DecidableEq a] : DecidableEq (Except e a) := fun x y =>
  match x, y with
  | .ok v, .ok w =>
      if h : v = w then .isTrue (by rw [h]) else .isFalse (fun hh => h (Except.ok.inj hh))
  | .error v, .error w =>
      if h : v = w then .isTrue (by rw [h]) else .isFalse (fun hh => h (Except.error.inj hh))
  | .ok _, .error _ => .isFalse (fun hh => Except.noConfusion hh)
  | .error _, .ok _ => .isFalse (fun hh => Except.noConfusion hh)

/-- Host-environment primitives used by the code but implemented by the JS
runtime, not by the repository: `new URL(u).protocol` (`none` when the URL
constructor throws), `Date.parse` in milliseconds (`none` for NaN),
`Date.now()` in milliseconds, and `new Date().toISOString()`. -/
structure JsEnv where
  urlProtocol : String → Option String
  dateParse : String → Option Int
  nowMs : Int
  isoNow : String

/-! ## A small regular-expression engine

Only the constructs appearing in the source's patterns are supported:
literals (case-sensitive or not), bounded character-class repetition
(covers `\s*`, `\s+`, `\d{n}`, `\w+`, `[^)]*`, `['"]`), sequencing,
alternation, greedy option, and the multiline `$` anchor. -/

inductive RE where
  | lit (s : List Char) (ci : Bool)
  | cls (p : Char → Bool) (lo : Nat) (hi : Option Nat)
  | seq (a b : RE)
  | alt (a b : RE)
  | opt (r : RE)
  | eolM

/-- Character comparison, optionally case-insensitive (ASCII folding is
enough for the source's patterns). -/
def charEq (ci : Bool) (a b : Char) : Bool :=
  if ci then a.toLower = b.toLower else a = b

/-- Strip a literal from the front of the input. -/
def dropLit (ci : Bool) : List Char → List Char → Option (List Char)
  | [], cs => some cs
  | _ :: _, [] => none
  | p :: ps, c :: cs => if charEq ci p c then dropLit ci ps cs else none

/-- Length of the maximal prefix of `cs` whose characters satisfy `p`,
bounded by `hi` when finite. -/
def clsCount (p : Char → Bool) : List Char → Option Nat → Nat
  | [], _ => 0
  | _ :: _, some 0 => 0
  | c :: cs, hi => if p c then 1 + clsCount p cs (hi.map (· - 1)) else 0

/-- All ways a regex can match a prefix of the input, returned as the list
of possible remainders in the JS engine's backtracking order (greedy
first).  The head of the list is the match the JS engine commits to. -/
def matchAt : RE → List Char → List (List Char)
  | .lit s ci, cs =>
      match dropLit ci s cs with
      | some rest => [rest]
      | none => []
  | .cls p lo hi, cs =>
      let m := clsCount p cs hi
      if lo ≤ m then (List.range (m + 1 - lo)).map (fun i => cs.drop (m - i)) else []
  | .seq a b, cs => (matchAt a cs).flatMap (matchAt b)
  | .alt a b, cs => matchAt a cs ++ matchAt b cs
  | .opt r, cs => matchAt r cs ++ [cs]
  | .eolM, cs =>
      match cs with
      | [] => [[]]
      | c :: _ => if c = '\n' then [cs] else []

/-- Number of characters consumed by the committed match of `re` at the
current position, if any. -/
def firstMatchLen (re : RE) (cs : List Char) : Option Nat :=
  match matchAt re cs with
  | [] => none
  | rest :: _ => some (cs.length - rest.length)

/-- Scan for the leftmost position (≥ the given absolute position) where
`re` matches; returns absolute (start, end). -/
def searchSub (re : RE) : List Char → Nat → Option (Nat × Nat)
  | cs, pos =>
      match firstMatchLen re cs with
      | some n => some (pos, pos + n)
      | none =>
          match cs with
          | [] => none
          | _ :: t => searchSub re t (pos + 1)

/-- `regexSearchFrom re cs li` mirrors a JS regex search that starts at
`lastIndex = li` (RegExpBuiltinExec fails outright when `li` exceeds the
input length). -/
def regexSearchFrom (re : RE) (cs : List Char) (li : Nat) : Option (Nat × Nat) :=
  if cs.length < li then none
  else
    match searchSub re (cs.drop li) li with
    | some r => some r
    | none => none

/-- `pattern.test(code)` on a `g`-flagged regex: search from `lastIndex`;
on success return `true` and the match end as the new `lastIndex`, on
failure return `false` and reset `lastIndex` to 0. -/
def jsTestG (re : RE) (cs : List Char) (li : Nat) : Bool × Nat :=
  match regexSearchFrom re cs li with
  | some (_, e) => (true, e)
  | none => (false, 0)

/-- Collect all (non-overlapping, left-to-right) match substrings, as
`String.prototype.match` does for a `g`-flagged regex. -/
def matchAllGo (re : RE) (cs : List Char) : Nat → Nat → List (List Char)
  | 0, _ => []
  | fuel + 1, idx =>
      match regexSearchFrom re cs idx with
      | none => []
      | some (s, e) =>
          ((cs.drop s).take (e - s)) ::
            matchAllGo re cs fuel (if e = s then e + 1 else e)

/-- `code.match(pattern)` for a `g`-flagged regex (state-independent: the
JS spec resets `lastIndex` to 0 before and after the collection loop). -/
def jsMatch (re : RE) (cs : List Char) : List (List Char) :=
  matchAllGo re cs (cs.length + 1) 0

/-- `regex.test(s)` for a non-global regex (no `lastIndex` interaction). -/
def jsTestPlain (re : RE) (cs : List Char) : Bool :=
  (regexSearchFrom re cs 0).isSome

/-- Whole-string match, used for the `^...$`-anchored date patterns. -/
def fullMatch (re : RE) (cs : List Char) : Bool :=
  (matchAt re cs).any (·.isEmpty)

/-! Character classes (ASCII is sufficient for every string the source
matches against). -/

def isWsChar (c : Char) : Bool :=
  c = ' ' || c = '\t' || c = '\n' || c = '\r' || c = '\x0b' || c = '\x0c'

def isDigitChar (c : Char) : Bool := '0' ≤ c && c ≤ '9'

def isWordChar (c : Char) : Bool :=
  ('a' ≤ c && c ≤ 'z') || ('A' ≤ c && c ≤ 'Z') || isDigitChar c || c = '_'

def rlit (s : String) : RE := .lit s.data false

def rlitCI (s : String) : RE := .lit s.data true

/-- Empty regex (matches the empty string). -/
def reps : RE := .lit [] false

def rseq (l : List RE) : RE := l.foldr .seq reps

def ws0 : RE := .cls isWsChar 0 none

def ws1 : RE := .cls isWsChar 1 none

def ralt3 (a b c : RE) : RE := .alt a (.alt b c)

def digitsN (n : Nat) : RE := .cls isDigitChar n (some n)

def wordPlus : RE := .cls isWordChar 1 none

/-- The `['"]` class. -/
def quoteCls : RE := .cls (fun c => c = Char.ofNat 39 || c = Char.ofNat 34) 1 (some 1)

/-- The `[+-]` class. -/
def pmCls : RE := .cls (fun c => c = '+' || c = '-') 1 (some 1)

end Specky
namespace Specky

/-! ## `completeness.ts`: the incompletion-marker catalog

Each entry embeds one element of `INCOMPLETE_PATTERNS` (a `g`- or
`gi`-flagged regex plus its message), in source order.  The `lastIndex`
state of these module-level regex objects is threaded separately (see
`RegexSt` below). -/

def INCOMPLETE_PATTERNS : List (RE × String) :=
  [ (rlit "...", "Ellipsis (...) found - code must be complete"),
    (.lit ['â', '€', '¦'] false,
      "Ellipsis character (â€¦) found - code must be complete"),
    (rseq [rlit "//", ws0, rlitCI "TODO"], "TODO comment found - must be implemented"),
    (rseq [rlit "//", ws0, rlitCI "FIXME"], "FIXME comment found - must be fixed"),
    (rseq [rlit "/*", ws0, rlitCI "TODO"], "TODO block comment found - must be implemented"),
    (rseq [rlit "/*", ws0, rlitCI "FIXME"], "FIXME block comment found - must be fixed"),
    (rseq [rlit "#", ws0, rlitCI "TODO"], "TODO comment found - must be implemented"),
    (rseq [rlit "#", ws0, rlitCI "FIXME"], "FIXME comment found - must be fixed"),
    (rseq [rlit "//", ws0, rlit "..."], "Placeholder comment (...) found"),
    (rseq [rlit "/*", ws0, rlit "..."], "Placeholder block comment found"),
    (rseq [rlit "//", ws0, rlitCI "implementation"], "Vague \"implementation\" comment found"),
    (rseq [rlit "//", ws0, rlitCI "handle", ws1,
        ralt3 (rlitCI "other") (rlitCI "remaining") (rlitCI "rest")],
      "Incomplete handling comment found"),
    (rseq [rlit "//", ws0, rlitCI "add", ws1,
        ralt3 (rlitCI "more") (rlitCI "other") (rlitCI "remaining")],
      "Incomplete addition comment found"),
    (rseq [rlitCI "similar", ws1, rlitCI "to", ws1,
        ralt3 (rlitCI "above") (rlitCI "below") (rlitCI "previous")],
      "\"Similar to above\" reference - write actual code"),
    (rseq [rlitCI "as", ws1, rlitCI "shown", ws1,
        ralt3 (rlitCI "above") (rlitCI "below") (rlitCI "before")],
      "\"As shown above\" reference - write actual code"),
    (rseq [rlitCI "same", ws1, rlitCI "as", ws1,
        ralt3 (rlitCI "above") (rlitCI "below") (rlitCI "before")],
      "\"Same as above\" reference - write actual code"),
    (rseq [rlitCI "see", ws1,
        ralt3 (rlitCI "above") (rlitCI "below") (rlitCI "other")],
      "\"See above\" reference - write actual code"),
    (rseq [rlitCI "rest", ws1, rlitCI "of", ws1, .opt (rseq [rlitCI "the", ws1]),
        rlitCI "implementation"],
      "\"Rest of implementation\" found - complete it"),
    (rseq [rlitCI "etc", .opt (rlit "."), .eolM], "Incomplete list ending with \"etc\""),
    (rseq [rlitCI "and", ws1, rlitCI "so", ws1, rlitCI "on"],
      "\"And so on\" found - complete the list"),
    (rseq [rlitCI "throw", ws1, rlitCI "new", ws1, rlitCI "Error", ws0, rlit "(", ws0,
        quoteCls, rlitCI "not", ws1, rlitCI "implemented"],
      "Not implemented error found"),
    (rseq [rlitCI "throw", ws1, rlitCI "new", ws1, rlitCI "Error", ws0, rlit "(", ws0,
        quoteCls, rlitCI "TODO"],
      "TODO error found"),
    (rseq [rlitCI "pass", ws0, rlit "#", ws0, rlitCI "TODO"], "Python pass with TODO found"),
    (rseq [rlitCI "raise", ws1, rlitCI "NotImplementedError"], "NotImplementedError found"),
    (rseq [rlit "//", ws0, rlitCI "logic", ws0, .opt (rseq [rlitCI "goes", ws1]),
        rlitCI "here"],
      "\"Logic here\" placeholder found"),
    (rseq [rlit "//", ws0, rlitCI "code", ws0, .opt (rseq [rlitCI "goes", ws1]),
        rlitCI "here"],
      "\"Code here\" placeholder found"),
    (rseq [rlit "//", ws0, rlitCI "your", ws1, rlitCI "code", ws1, rlitCI "here"],
      "\"Your code here\" placeholder found"),
    (rseq [rlit "//", ws0, rlitCI "insert"], "\"Insert\" placeholder comment found") ]

/-- `INCOMPLETE_FUNCTION_PATTERNS` (all case-sensitive; the second entry is
`gm`-flagged). -/
def INCOMPLETE_FUNCTION_PATTERNS : List (RE × String) :=
  [ (rseq [rlit "\x7b", ws0, rlit "\x7d"], "Empty function body found"),
    (rseq [rlit "=>", ws0, rlit "undefined", ws0, .opt (rlit ";"), .eolM],
      "Arrow function returning undefined"),
    (rseq [rlit "return", ws1, rlit "undefined", ws0, .opt (rlit ";"), ws0, rlit "\x7d"],
      "Function returning undefined without logic"),
    (rseq [rlit "async", ws1, rlit "(", .cls (fun c => !(c = ')')) 0 none, rlit ")", ws0,
        rlit "=>", ws0, rlit "\x7b", ws0, rlit "\x7d"],
      "Empty async arrow function"),
    (rseq [rlit "async", ws1, rlit "function", ws1, wordPlus, ws0, rlit "(",
        .cls (fun c => !(c = ')')) 0 none, rlit ")", ws0, rlit "\x7b", ws0, rlit "\x7d"],
      "Empty async function") ]

/-- The non-global `type\s+\w+\s*=|interface\s+\w+` regex used to detect a
type-definition context. -/
def isTypeContextRE : RE :=
  .alt (rseq [rlit "type", ws1, wordPlus, ws0, rlit "="])
       (rseq [rlit "interface", ws1, wordPlus])

/-! ## Data model (`planning/schemas/spec-pack.ts`) -/

inductive StoryStatus where
  | pending | ready | in_progress | completed | blocked
deriving DecidableEq, Inhabited

inductive EffortSize where
  | S | M | L | XL
deriving DecidableEq, Inhabited

inductive AgentType where
  | senior_fullstack | backend_data_architect | senior_devops | general_purpose | explore
deriving DecidableEq, Inhabited

inductive FileAction where
  | CREATE | MODIFY | DELETE
deriving DecidableEq, Inhabited

structure VerifiedTech where
  name : String
  version : String
  verified_latest : Bool
  release_date : Option String := none
  verification_source : String
  verification_notes : Option String := none
deriving DecidableEq, Inhabited

structure FrontendTesting where
  unit : Option VerifiedTech := none
  e2e : Option VerifiedTech := none
deriving DecidableEq, Inhabited

structure FrontendStack where
  framework : Option VerifiedTech := none
  react : Option VerifiedTech := none
  typescript : Option VerifiedTech := none
  styling : Option VerifiedTech := none
  state_management : Option VerifiedTech := none
  testing : Option FrontendTesting := none
deriving DecidableEq, Inhabited

structure BackendStack where
  database : Option VerifiedTech := none
  orm : Option VerifiedTech := none
  api : Option VerifiedTech := none
deriving DecidableEq, Inhabited

/-- `VerifiedTechStack`; the `ai` block is never read by any embedded
function and is omitted. -/
structure VerifiedTechStack where
  verified_at : String
  verification_method : String
  frontend : Option FrontendStack := none
  backend : Option BackendStack := none
deriving DecidableEq, Inhabited

structure RejectedAlternative where
  option : String
  rejected_because : String
deriving DecidableEq, Inhabited

structure DesignDecision where
  id : String
  topic : String
  decision : String
  alternatives_considered : List RejectedAlternative
  challenger_objection : String
  response : String
  verified_at : String
  verification_source : String
deriving DecidableEq, Inhabited

structure AffectedFile where
  path : String
  action : FileAction
  lines : Option String := none
deriving DecidableEq, Inhabited

structure AcceptanceCriterion where
  criterion : String
  verification : String
deriving DecidableEq, Inhabited

structure StoryStep where
  step_id : Nat
  title : String
  file_path : String
  action : FileAction
  lines : Option String := none
  code : String
  verification : String
deriving DecidableEq, Inhabited

structure Story where
  id : String
  title : String
  sprint : String
  domain : String
  status : StoryStatus
  agent_type : AgentType
  estimated_effort : EffortSize
  actual_effort : Option EffortSize := none
  blocked_by : List String
  blocks : List String
  task_ids : Nat
  steps : List StoryStep
  files_affected : List AffectedFile
  acceptance_criteria : List AcceptanceCriterion
  notes : Option String := none
  completed_at : Option String := none
  completed_by : Option String := none
deriving DecidableEq, Inhabited

inductive Severity where
  | error | warning
deriving DecidableEq, Inhabited

inductive IssueCategory where
  | completeness | citation | atomic | schema | dag
deriving DecidableEq, Inhabited

structure ValidationIssue where
  severity : Severity
  category : IssueCategory
  message : String
  location : String
  suggestion : Option String := none
deriving DecidableEq, Inhabited

structure CategoryResult where
  score : Int
  issues : List ValidationIssue
deriving DecidableEq, Inhabited

structure QualityBreakdown where
  completeness : CategoryResult
  citations : CategoryResult
  atomic : CategoryResult
  schemas : CategoryResult
  dag : CategoryResult
deriving DecidableEq, Inhabited

structure QualityReport where
  confidence_score : Int
  passes : Bool
  breakdown : QualityBreakdown
  validated_at : String
deriving DecidableEq, Inhabited

end Specky
namespace Specky

/-! ## String helpers (JS `String.prototype` operations) -/

/-- Does `pre` occur at the front of `cs`? -/
def listStartsWith : List Char → List Char → Bool
  | _, [] => true
  | [], _ :: _ => false
  | c :: cs, p :: ps => (c = p) && listStartsWith cs ps

/-- `hay.indexOf(sub)` (position of the first occurrence). -/
def idxOfSubAux (sub : List Char) : List Char → Nat → Option Nat
  | cs, pos =>
      if listStartsWith cs sub then some pos
      else
        match cs with
        | [] => none
        | _ :: t => idxOfSubAux sub t (pos + 1)

def idxOfSub (hay sub : List Char) : Option Nat := idxOfSubAux sub hay 0

/-- `hay.includes(sub)`. -/
def containsSub (hay sub : String) : Bool := (idxOfSub hay.data sub.data).isSome

/-- Line number of a match occurrence: 1 + the number of newlines before
`code.indexOf(match)` (as computed by `validateCodeBlock`). -/
def lineNumberOf (code m : List Char) : Nat :=
  ((code.take ((idxOfSub code m).getD 0)).count '\n') + 1

def errorCount (issues : List ValidationIssue) : Nat :=
  (issues.filter (fun i => decide (i.severity = Severity.error))).length

def warningCount (issues : List ValidationIssue) : Nat :=
  (issues.filter (fun i => decide (i.severity = Severity.warning))).length

/-! ## `completeness.ts` -/

structure CompletenessResult where
  complete : Bool
  score : Int
  issues : List ValidationIssue
deriving DecidableEq, Inhabited

/-- `validateCodeBlock`: every marker match becomes an error-severity
issue; the function-shape patterns are suppressed inside an obvious
type-definition context. -/
def validateCodeBlock (code location : String) : List ValidationIssue :=
  let cs := code.data
  let markerIssues := INCOMPLETE_PATTERNS.flatMap (fun p =>
    (jsMatch p.1 cs).map (fun m =>
      { severity := .error, category := .completeness, message := p.2,
        location := location ++ ":" ++ toString (lineNumberOf cs m),
        suggestion := some "Replace with complete implementation" }))
  let isTypeContext := jsTestPlain isTypeContextRE cs
  let fnIssues :=
    if isTypeContext then []
    else INCOMPLETE_FUNCTION_PATTERNS.flatMap (fun p =>
      (jsMatch p.1 cs).map (fun m =>
        { severity := .error, category := .completeness, message := p.2,
          location := location ++ ":" ++ toString (lineNumberOf cs m),
          suggestion := some "Implement the function body" }))
  markerIssues ++ fnIssues

def validateStep (step : StoryStep) (storyId : String) : List ValidationIssue :=
  validateCodeBlock step.code
    (storyId ++ "/step:" ++ toString step.step_id ++ "/" ++ step.file_path)

def validateStory (story : Story) : List ValidationIssue :=
  story.steps.flatMap (fun step => validateStep step story.id)

def validateCompleteness (stories : List Story) : CompletenessResult :=
  let allIssues := stories.flatMap validateStory
  { complete := allIssues.length = 0,
    score := max 0 (100 - (allIssues.length : Int) * 5),
    issues := allIssues }

/-! The 28 module-level regexes of `INCOMPLETE_PATTERNS` are `g`-flagged
objects with a mutable `lastIndex`, shared between `validateCodeBlock`
(via `String.prototype.match`, which always leaves `lastIndex = 0`) and
`hasIncompleteCode` (via `RegExp.prototype.test`, which starts at the
current `lastIndex`, sets it to the match end on success and to 0 on
failure; the explicit reset line in the source is skipped by the early
`return true`).  `RegexSt` is the vector of the 28 `lastIndex` values. -/

abbrev RegexSt : Type := List Nat

/-- All `lastIndex` values are 0 when the module is loaded. -/
def regexInit : RegexSt := List.replicate INCOMPLETE_PATTERNS.length 0

/-- `validateCodeBlock` runs `code.match(pattern)` on every pattern, which
leaves every `lastIndex` at 0; `validateCompleteness` therefore resets the
state exactly when it scanned at least one step's code block. -/
def completenessRegexEffect (st : RegexSt) (stories : List Story) : RegexSt :=
  if stories.any (fun s => !s.steps.isEmpty) then regexInit else st

/-- `hasIncompleteCode`: test the patterns in order; the first success
returns `true` immediately, leaving that pattern's `lastIndex` at the
match end and the remaining patterns' values untouched. -/
def hasIncompleteCodeGo : List (RE × String) → List Nat → List Char → Bool × List Nat
  | [], st, _ => (false, st)
  | _ :: _, [], _ => (false, [])
  | p :: ps, li :: ls, cs =>
      match jsTestG p.1 cs li with
      | (true, e) => (true, e :: ls)
      | (false, _) =>
          let r := hasIncompleteCodeGo ps ls cs
          (r.1, 0 :: r.2)

def hasIncompleteCode (code : String) (st : RegexSt) : Bool × RegexSt :=
  hasIncompleteCodeGo INCOMPLETE_PATTERNS st code.data

/-! ## `atomic.ts` -/

def MAX_FILES_PER_TASK : Nat := 3

structure AtomicResult where
  atomic : Bool
  score : Int
  issues : List ValidationIssue
  violatingStories : List String
deriving DecidableEq, Inhabited

/-- JS `Set` insertion (first-insertion order, no duplicates). -/
def setAdd (l : List String) (x : String) : List String :=
  if x ∈ l then l else l ++ [x]

def setOfList (xs : List String) : List String := xs.foldl setAdd []

def countFilesAffected (story : Story) : Nat :=
  (setOfList (story.files_affected.map (·.path) ++ story.steps.map (·.file_path))).length

def getFilesAffected (story : Story) : List String :=
  setOfList (story.files_affected.map (·.path) ++ story.steps.map (·.file_path))

def validateStoryAtomic (story : Story) : List ValidationIssue :=
  let fileCount := countFilesAffected story
  if MAX_FILES_PER_TASK < fileCount then
    let files := getFilesAffected story
    [ { severity := .error, category := .atomic,
        message := "Story " ++ story.id ++ " touches " ++ toString fileCount ++
          " files (max: " ++ toString MAX_FILES_PER_TASK ++ ")",
        location := story.id,
        suggestion := some ("Split into " ++
          toString ((fileCount + MAX_FILES_PER_TASK - 1) / MAX_FILES_PER_TASK) ++
          " smaller stories. Files affected: " ++ String.intercalate ", " files) } ]
  else []

def validateAtomic (stories : List Story) : AtomicResult :=
  let step := fun (acc : List ValidationIssue × List String) (story : Story) =>
    let issues := validateStoryAtomic story
    if issues.length ≠ 0 then (acc.1 ++ issues, acc.2 ++ [story.id]) else acc
  let r := stories.foldl step ([], [])
  { atomic := r.2.length = 0,
    score := if r.2.length = 0 then 100 else 0,
    issues := r.1,
    violatingStories := r.2 }

end Specky
namespace Specky

/-! ## `citations.ts` -/

structure CitationResult where
  complete : Bool
  score : Int
  issues : List ValidationIssue
  missingCitations : List String
deriving DecidableEq, Inhabited

/-- `isValidUrl`: `new URL(url)` succeeds and the protocol is http/https.
The WHATWG parser itself is host behaviour, supplied by `JsEnv`. -/
def isValidUrl (env : JsEnv) (url : String) : Bool :=
  match env.urlProtocol url with
  | some p => p == "http:" || p == "https:"
  | none => false

/-- The anchored ISO-8601 pattern of `isValidDate`. -/
def isoPatternRE : RE :=
  rseq [digitsN 4, rlit "-", digitsN 2, rlit "-", digitsN 2,
    .opt (rseq [rlit "T", digitsN 2, rlit ":", digitsN 2, rlit ":", digitsN 2,
      .opt (rseq [rlit ".", digitsN 3]),
      .opt (.alt (rlit "Z") (rseq [pmCls, digitsN 2, rlit ":", digitsN 2]))])]

/-- The three anchored "common format" patterns of `isValidDate`. -/
def commonPatternREs : List RE :=
  [ rseq [digitsN 4, rlit "-", digitsN 2, rlit "-", digitsN 2],
    rseq [digitsN 2, rlit "/", digitsN 2, rlit "/", digitsN 4],
    rseq [.cls (fun c => 'A' ≤ c && c ≤ 'Z') 1 (some 1),
      .cls (fun c => 'a' ≤ c && c ≤ 'z') 1 none, rlit " ",
      .cls isDigitChar 1 (some 2), rlit ", ", digitsN 4] ]

/-- `isValidDate`: must match one of the anchored shapes and then parse
(`!isNaN(Date.parse(date))`). -/
def isValidDate (env : JsEnv) (date : String) : Bool :=
  let cs := date.data
  if fullMatch isoPatternRE cs then (env.dateParse date).isSome
  else if commonPatternREs.any (fun re => fullMatch re cs) then (env.dateParse date).isSome
  else false

/-- `isRecentDate`: `new Date(dateStr) >= now - 90 days`; an unparsable
date (NaN) compares false. -/
def isRecentDate (env : JsEnv) (dateStr : String) : Bool :=
  match env.dateParse dateStr with
  | some t => decide (env.nowMs - 90 * 24 * 60 * 60 * 1000 ≤ t)
  | none => false

def validateDecision (env : JsEnv) (decision : DesignDecision) : List ValidationIssue :=
  let location := "decision/" ++ decision.id
  let urlIssues :=
    if decision.verification_source == "" then
      [ { severity := .error, category := .citation,
          message := "Decision \"" ++ decision.topic ++ "\" missing verification source URL",
          location := location,
          suggestion := some "Add a verification_source URL to the decision" } ]
    else if !isValidUrl env decision.verification_source then
      [ { severity := .error, category := .citation,
          message := "Decision \"" ++ decision.topic ++ "\" has invalid URL: " ++
            decision.verification_source,
          location := location,
          suggestion := some "Provide a valid HTTP/HTTPS URL" } ]
    else []
  let dateIssues :=
    if decision.verified_at == "" then
      [ { severity := .error, category := .citation,
          message := "Decision \"" ++ decision.topic ++ "\" missing verification date",
          location := location,
          suggestion := some "Add a verified_at date to the decision" } ]
    else if !isValidDate env decision.verified_at then
      [ { severity := .error, category := .citation,
          message := "Decision \"" ++ decision.topic ++ "\" has invalid date: " ++
            decision.verified_at,
          location := location,
          suggestion := some "Use ISO 8601 format: YYYY-MM-DD or YYYY-MM-DDTHH:MM:SSZ" } ]
    else if !isRecentDate env decision.verified_at then
      [ { severity := .warning, category := .citation,
          message := "Decision \"" ++ decision.topic ++ "\" verification is over 90 days old",
          location := location,
          suggestion := some "Re-verify this decision with current sources" } ]
    else []
  let altIssues :=
    if decision.alternatives_considered.length = 0 then
      [ { severity := .warning, category := .citation,
          message := "Decision \"" ++ decision.topic ++ "\" has no alternatives documented",
          location := location,
          suggestion := some "Document at least 2 alternatives that were considered" } ]
    else []
  urlIssues ++ dateIssues ++ altIssues

def validateTech (env : JsEnv) (tech : VerifiedTech) (path : String) : List ValidationIssue :=
  let location := "tech_stack/" ++ path
  let versionIssues :=
    if tech.version == "" || tech.version == "latest" then
      [ { severity := .error, category := .citation,
          message := "Tech \"" ++ tech.name ++ "\" has no specific version (found: \"" ++
            (if tech.version == "" then "undefined" else tech.version) ++ "\")",
          location := location,
          suggestion := some "Specify an exact version number, not \"latest\"" } ]
    else []
  let sourceIssues :=
    if tech.verification_source == "" then
      [ { severity := .error, category := .citation,
          message := "Tech \"" ++ tech.name ++ "\" missing verification source URL",
          location := location,
          suggestion := some "Add verification_source URL pointing to release notes or npm" } ]
    else if !isValidUrl env tech.verification_source then
      [ { severity := .error, category := .citation,
          message := "Tech \"" ++ tech.name ++ "\" has invalid URL: " ++
            tech.verification_source,
          location := location,
          suggestion := some "Provide a valid HTTP/HTTPS URL" } ]
    else []
  versionIssues ++ sourceIssues

/-- Guarded per-entry validation (`if (techStack.frontend.react) ...`). -/
def validateTechOpt (env : JsEnv) (tech : Option VerifiedTech) (path : String) :
    List ValidationIssue :=
  match tech with
  | some t => validateTech env t path
  | none => []

def validateTechStack (env : JsEnv) (techStack : VerifiedTechStack) : List ValidationIssue :=
  let topIssues :=
    if techStack.verified_at == "" then
      [ { severity := .error, category := .citation,
          message := "Tech stack missing verification timestamp",
          location := "tech_stack",
          suggestion := some "Add verified_at timestamp to tech_stack" } ]
    else []
  let frontendIssues :=
    match techStack.frontend with
    | some fe =>
        validateTechOpt env fe.framework "frontend/framework" ++
        validateTechOpt env fe.react "frontend/react" ++
        validateTechOpt env fe.typescript "frontend/typescript" ++
        validateTechOpt env fe.styling "frontend/styling" ++
        validateTechOpt env fe.state_management "frontend/state_management"
    | none => []
  let backendIssues :=
    match techStack.backend with
    | some be =>
        validateTechOpt env be.database "backend/database" ++
        validateTechOpt env be.orm "backend/orm"
    | none => []
  topIssues ++ frontendIssues ++ backendIssues

def validateCitations (env : JsEnv) (decisions : List DesignDecision)
    (techStack : Option VerifiedTechStack) : CitationResult :=
  let step := fun (acc : List ValidationIssue × List String) (decision : DesignDecision) =>
    let issues := validateDecision env decision
    ( acc.1 ++ issues,
      if issues.any (fun i => decide (i.severity = Severity.error)) then
        acc.2 ++ [decision.id]
      else acc.2 )
  let perDecision := decisions.foldl step ([], [])
  let allIssues := perDecision.1 ++
    (match techStack with
     | some ts => validateTechStack env ts
     | none => [])
  let errors := errorCount allIssues
  let warnings := warningCount allIssues
  { complete := errors = 0,
    score := if 0 < errors then 0 else max 0 (100 - (warnings : Int) * 10),
    issues := allIssues,
    missingCitations := perDecision.2 }

def hasProperCitation (env : JsEnv) (decision : DesignDecision) : Bool :=
  decision.verification_source != "" &&
  isValidUrl env decision.verification_source &&
  decision.verified_at != "" &&
  isValidDate env decision.verified_at

end Specky
namespace Specky

/-! ## `validators/index.ts` -/

/-- Input for full validation (`ValidationInput` of `validators/index.ts`;
records become association lists with distinct keys). -/
structure ValidationInput where
  stories : List Story
  decisions : List DesignDecision
  schemas : List (String × String)
  techStack : Option VerifiedTechStack := none
  dependencyDag : Option (List (String × List String)) := none

/-- `validateSchemas`, threading the shared regex state consumed by its
`hasIncompleteCode` calls. -/
def validateSchemasGo : List (String × String) → RegexSt → List ValidationIssue × RegexSt
  | [], st => ([], st)
  | (name, content) :: rest, st =>
      let braceIssues :=
        if (content.data.count '\x7b') ≠ (content.data.count '\x7d') then
          [ { severity := .error, category := .schema,
              message := "Schema \"" ++ name ++ "\" has mismatched braces",
              location := "schemas/" ++ name,
              suggestion := some "Check for missing \x7b or \x7d" } ]
        else []
      let parenIssues :=
        if (content.data.count '(') ≠ (content.data.count ')') then
          [ { severity := .error, category := .schema,
              message := "Schema \"" ++ name ++ "\" has mismatched parentheses",
              location := "schemas/" ++ name,
              suggestion := some "Check for missing ( or )" } ]
        else []
      let exportIssues :=
        if containsSub content "export \x7b\x7d" &&
            !containsSub content "export type" && !containsSub content "export interface" then
          [ { severity := .warning, category := .schema,
              message := "Schema \"" ++ name ++ "\" has empty export",
              location := "schemas/" ++ name,
              suggestion := some "Add actual type exports" } ]
        else []
      let hic := hasIncompleteCode content st
      let incompleteIssues :=
        if hic.1 then
          [ { severity := .error, category := .schema,
              message := "Schema \"" ++ name ++ "\" contains incomplete code",
              location := "schemas/" ++ name,
              suggestion := some "Complete all type definitions" } ]
        else []
      let restR := validateSchemasGo rest hic.2
      (braceIssues ++ parenIssues ++ exportIssues ++ incompleteIssues ++ restR.1, restR.2)

def validateSchemas (schemas : List (String × String)) (st : RegexSt) :
    CategoryResult × RegexSt :=
  let r := validateSchemasGo schemas st
  ({ score := if errorCount r.1 = 0 then 100 else 0, issues := r.1 }, r.2)

/-! `validateDag`: depth-first cycle detection over the dependency record
(`node → list of nodes it depends on`), with mutable `visited` and
`recursionStack` sets.  The recursion is bounded in Lean with a fuel that
provably exceeds the depth the real recursion can reach (one fresh node is
added to `visited` at every nested level). -/

structure DfsSt where
  visited : List String
  stack : List String
deriving DecidableEq, Inhabited

/-- `dag[node] || []`. -/
def dagDeps (dag : List (String × List String)) (n : String) : List String :=
  match dag.lookup n with
  | some ds => ds
  | none => []

def dagKeys (dag : List (String × List String)) : List String := dag.map Prod.fst

/-- All node names occurring in the record (keys and dependency targets);
used only to size the fuel. -/
def dagUniverse (dag : List (String × List String)) : List String :=
  setOfList (dagKeys dag ++ dag.flatMap Prod.snd)

/-- The `for (const dep of dependencies)` loop of `hasCycle` (the recursive
call is passed in as `f`, which keeps the recursion structural on the fuel). -/
def hasCycleDepsF (f : String → DfsSt → Option (List String) × DfsSt) :
    List String → DfsSt → Option (List String) × DfsSt
  | [], st => (none, st)
  | d :: ds, st =>
      match f d st with
      | (some c, st2) => (some c, st2)
      | (none, st2) => hasCycleDepsF f ds st2

/-- The inner `hasCycle(node, path)` of `validateDag`. -/
def hasCycleF (dag : List (String × List String)) :
    Nat → String → List String → DfsSt → Option (List String) × DfsSt
  | 0, _, _, st => (none, st)
  | fuel + 1, node, path, st =>
      if node ∈ st.stack then
        (some (path.drop (path.indexOf node) ++ [node]), st)
      else if node ∈ st.visited then
        (none, st)
      else
        let st1 : DfsSt := ⟨st.visited ++ [node], st.stack ++ [node]⟩
        match hasCycleDepsF (fun d => hasCycleF dag fuel d (path ++ [node]))
            (dagDeps dag node) st1 with
        | (some c, st2) => (some c, st2)
        | (none, st2) => (none, ⟨st2.visited, st2.stack.erase node⟩)

/-- The dependency loop with the recursive call at a fixed fuel spelled
out (same equations as `hasCycleDepsF` applied to `hasCycleF`). -/
def hasCycleDeps (dag : List (String × List String)) :
    Nat → List String → List String → DfsSt → Option (List String) × DfsSt
  | _, [], _, st => (none, st)
  | fuel, d :: ds, path, st =>
      match hasCycleF dag fuel d path st with
      | (some c, st2) => (some c, st2)
      | (none, st2) => hasCycleDeps dag fuel ds path st2

/-- The `for (const node of Object.keys(dag))` loop (stops at the first
cycle found). -/
def dagCycleScan (dag : List (String × List String)) (fuel : Nat) :
    List String → DfsSt → Option (List String)
  | [], _ => none
  | n :: ns, st =>
      if n ∈ st.visited then dagCycleScan dag fuel ns st
      else
        match hasCycleF dag fuel n [] st with
        | (some c, _) => some c
        | (none, st2) => dagCycleScan dag fuel ns st2

/-- The single error reported for a detected cycle. -/
def cycleIssueOf (cycle : List String) : ValidationIssue :=
  { severity := .error, category := .dag,
    message := "Circular dependency detected: " ++ String.intercalate " → " cycle,
    location := "dependency_dag",
    suggestion := some "Remove the circular dependency" }

/-- The `Missing dependencies` loop of `validateDag`: one error per
dependency that is not a key of the record. -/
def missingDepIssues (dag : List (String × List String)) : List ValidationIssue :=
  dag.flatMap (fun p =>
    p.2.filterMap (fun dep =>
      if (dag.lookup dep).isSome then none
      else some
        { severity := .error, category := .dag,
          message := "Story \"" ++ p.1 ++ "\" depends on unknown story \"" ++ dep ++ "\"",
          location := "dependency_dag/" ++ p.1,
          suggestion := some ("Add story \"" ++ dep ++ "\" or remove it from blocked_by") }))

def validateDag (dag : List (String × List String)) : CategoryResult :=
  let cycleIssues :=
    match dagCycleScan dag ((dagUniverse dag).length + 1) (dagKeys dag) ⟨[], []⟩ with
    | some cycle => [cycleIssueOf cycle]
    | none => []
  let issues := cycleIssues ++ missingDepIssues dag
  { score := if errorCount issues = 0 then 100 else 0, issues := issues }

/-- `Math.min(...scores)` (the argument list is never empty here). -/
def jsMinList : List Int → Int
  | [] => 0
  | x :: xs => xs.foldl min x

/-- `validateAll`: run the five validators and aggregate. -/
def validateAll (env : JsEnv) (input : ValidationInput) (st : RegexSt) :
    QualityReport × RegexSt :=
  let completenessResult := validateCompleteness input.stories
  let st1 := completenessRegexEffect st input.stories
  let atomicResult := validateAtomic input.stories
  let citationResult := validateCitations env input.decisions input.techStack
  let schemaR := validateSchemas input.schemas st1
  let dagResult :=
    match input.dependencyDag with
    | some d => validateDag d
    | none => ({ score := 100, issues := [] } : CategoryResult)
  let allScores := [completenessResult.score, atomicResult.score, citationResult.score,
    schemaR.1.score, dagResult.score]
  let confidenceScore := jsMinList allScores
  let passes := confidenceScore == 100
  ( { confidence_score := confidenceScore,
      passes := passes,
      breakdown :=
        { completeness := { score := completenessResult.score, issues := completenessResult.issues },
          citations := { score := citationResult.score, issues := citationResult.issues },
          atomic := { score := atomicResult.score, issues := atomicResult.issues },
          schemas := schemaR.1,
          dag := dagResult },
      validated_at := env.isoNow },
    schemaR.2 )

end Specky
namespace Specky

/-! ## `agents/base.ts`: the Agent Invoker (retry + shape validation) -/

structure RetryConfig where
  maxRetries : Nat
  baseDelayMs : Nat
  maxDelayMs : Nat
deriving DecidableEq, Inhabited

def DEFAULT_RETRY_CONFIG : RetryConfig :=
  { maxRetries := 3, baseDelayMs := 1000, maxDelayMs := 10000 }

/-- `getBackoffDelay`: `min(base * 2^attempt, capDelay)`. -/
def getBackoffDelay (attempt : Nat) (config : RetryConfig) : Nat :=
  min (config.baseDelayMs * 2 ^ attempt) config.maxDelayMs

structure Usage where
  inputTokens : Nat
  outputTokens : Nat
deriving DecidableEq, Inhabited

structure LLMResponse where
  content : String
  usage : Option Usage := none
  model : String
  stopReason : Option String := none
deriving DecidableEq, Inhabited

structure AgentResult (T : Type) where
  success : Bool
  data : Option T := none
  error : Option String := none
  rawResponse : Option String := none
  usage : Option Usage := none
  retries : Nat
deriving DecidableEq, Inhabited

/-- The per-attempt behaviour of one concrete agent, abstracting what is
external to the retry wrapper: `invokeLLM` (transport; indexed by the
attempt number because the collaborator may answer differently each
time), the response parser (`parseJSONResponse` composed with the host's
`JSON.parse`), and the phase-specific shape validator. -/
structure AgentBehavior (TInput TOutput : Type) where
  invokeLLM : Nat → TInput → Except String LLMResponse
  parse : String → Except String TOutput
  validateOutput : TOutput → Bool

/-- One iteration of the `try` block of `executeWithRetry`: invoke, parse,
shape-validate.  Any of the three failure modes surfaces as an error. -/
def attemptOnce {I O : Type} (ag : AgentBehavior I O) (input : I) (attempt : Nat) :
    Except String (O × LLMResponse) :=
  match ag.invokeLLM attempt input with
  | .error e => .error e
  | .ok response =>
      match ag.parse response.content with
      | .error e => .error e
      | .ok parsed =>
          if !ag.validateOutput parsed then .error "Output validation failed"
          else .ok (parsed, response)

/-- `executeWithRetry` (`for (attempt = 0; attempt <= maxRetries; attempt++)`).
Also returns the number of attempts actually made.  The backoff sleep
between failed attempts (`getBackoffDelay`) has no observable effect on
the result and is not modelled as state. -/
def executeWithRetryGo {I O : Type} (ag : AgentBehavior I O) (input : I) :
    Nat → Nat → Option String → Nat → AgentResult O × Nat
  | 0, _, lastError, retries => ({ success := false, error := lastError, retries := retries }, 0)
  | remaining + 1, attempt, _, retries =>
      match attemptOnce ag input attempt with
      | .ok r =>
          ( { success := true, data := some r.1, rawResponse := some r.2.content,
              usage := r.2.usage, retries := retries }, 1)
      | .error e =>
          let rest := executeWithRetryGo ag input remaining (attempt + 1) (some e) (retries + 1)
          (rest.1, rest.2 + 1)

def executeWithRetry {I O : Type} (ag : AgentBehavior I O) (config : RetryConfig)
    (input : I) : AgentResult O × Nat :=
  executeWithRetryGo ag input (config.maxRetries + 1) 0 none 0

/-- JS `a || b` on an optional string (`undefined` and `""` are falsy). -/
def jsOrString (s : Option String) (fallback : String) : String :=
  match s with
  | some v => if v == "" then fallback else v
  | none => fallback

/-- `execute`: unwrap the retry result or throw
`result.error || 'Agent execution failed'`. -/
def execute {I O : Type} (ag : AgentBehavior I O) (config : RetryConfig) (input : I) :
    Except String O :=
  let result := (executeWithRetry ag config input).1
  match result.data with
  | some d =>
      if result.success then .ok d
      else .error (jsOrString result.error "Agent execution failed")
  | none => .error (jsOrString result.error "Agent execution failed")

end Specky
namespace Specky
namespace Orch

/-! ## `planning/schemas/pipeline.ts`: phase I/O types -/

structure ClarifyingQuestion where
  question : String
  rationale : String
  recommended : String
  alternatives : Option (List String) := none
  answer : Option String := none
deriving DecidableEq, Inhabited

structure MentionedTechVerification where
  latest_version : String
  release_date : String
  source_url : String
deriving DecidableEq, Inhabited

structure MentionedTech where
  name : String
  context : String
  verified : Bool
  verification : Option MentionedTechVerification := none
deriving DecidableEq, Inhabited

structure RequirementsDraft where
  goal : String
  scope : List String
  non_goals : List String
deriving DecidableEq, Inhabited

structure DiscoveryInput where
  user_prompt : String
  project_context : Option String := none
deriving DecidableEq, Inhabited

structure DiscoveryOutput where
  parsed_intent : String
  clarifying_questions : List ClarifyingQuestion
  mentioned_tech : List MentionedTech
  requirements_draft : RequirementsDraft
deriving DecidableEq, Inhabited

inductive ChallengeType where
  | feasibility | scope | security | ux | performance
deriving DecidableEq, Inhabited

inductive ChallengeResolutionStatus where
  | open | addressed | accepted | dismissed
deriving DecidableEq, Inhabited

structure Challenge where
  type : ChallengeType
  concern : String
  evidence : String
  suggested_resolution : String
  status : ChallengeResolutionStatus
  resolution : Option String := none
deriving DecidableEq, Inhabited

structure RequirementsChallenged where
  goal : String
  scope : List String
  non_goals : List String
  acceptance_criteria : List String
deriving DecidableEq, Inhabited

structure ChallengeInput where
  discovery_output : DiscoveryOutput
  answered_questions : List ClarifyingQuestion
deriving DecidableEq, Inhabited

structure ChallengeOutput where
  challenges : List Challenge
  requirements_challenged : RequirementsChallenged
  needs_discovery_loop : Bool
  loop_reason : Option String := none
deriving DecidableEq, Inhabited

structure DesignInput where
  requirements : RequirementsChallenged
  verified_tech : List MentionedTech
  challenges : List Challenge
deriving DecidableEq, Inhabited

structure DesignOutput where
  architecture : String
  tech_stack : VerifiedTechStack
  file_structure : String
  decisions : List DesignDecision
  schemas : List (String × String)
  needs_refinement : Bool
  refinement_notes : Option (List String) := none
deriving DecidableEq, Inhabited

structure DecompositionInput where
  design : DesignOutput
  requirements : RequirementsChallenged
deriving DecidableEq, Inhabited

structure SprintEntry where
  name : String
  theme : String
  story_ids : List String
deriving DecidableEq, Inhabited

structure DecompositionOutput where
  sprints : List (String × SprintEntry)
  stories : List Story
  dependency_dag : List (String × List String)
  has_non_atomic_tasks : Bool
  non_atomic_stories : Option (List String) := none
deriving DecidableEq, Inhabited

/-- The validation phase's `ValidationInput` (distinct from the validators'
`Specky.ValidationInput`). -/
structure ValidationInput where
  stories : List Story
  schemas : List (String × String)
  decisions : List DesignDecision
  dependency_dag : List (String × List String)
deriving DecidableEq, Inhabited

structure LoopTargets where
  design_issues : Option (List String) := none
  decomposition_issues : Option (List String) := none
deriving DecidableEq, Inhabited

structure ValidationOutput where
  quality_report : QualityReport
  passes : Bool
  loop_targets : Option LoopTargets := none
deriving DecidableEq, Inhabited

structure SynthesisInput where
  discovery : DiscoveryOutput
  challenge : ChallengeOutput
  design : DesignOutput
  decomposition : DecompositionOutput
  validation : ValidationOutput
deriving DecidableEq, Inhabited

/-- The final spec pack.  None of its fields is ever inspected by the
orchestrator (it is handed back verbatim as the pipeline result), so the
interface is modelled opaquely. -/
structure SpecPack where
  payload : String
deriving DecidableEq, Inhabited

structure SynthExports where
  markdown : String
  json : String
deriving DecidableEq, Inhabited

structure SynthesisOutput where
  spec_pack : SpecPack
  executive_summary : String
  exports : SynthExports
deriving DecidableEq, Inhabited

inductive PipelinePhase where
  | discovery | challenge | design | decomposition | validation | synthesis
deriving DecidableEq, Inhabited

inductive PhaseStatus where
  | pending | running | iterating | completed | failed
deriving DecidableEq, Inhabited

inductive RunStatus where
  | running | completed | failed
deriving DecidableEq, Inhabited

/-- `PhaseState<TInput, TOutput>` (the two pure-clock timestamp fields are
omitted). -/
structure PhaseState (TInput TOutput : Type) where
  phase : PipelinePhase
  status : PhaseStatus
  input : Option TInput := none
  output : Option TOutput := none
  iterations : Nat
  max_iterations : Nat
  error : Option String := none
deriving DecidableEq, Inhabited

/-- `IterationConfig`; `decomposition_validation_max : number | 'unlimited'`. -/
inductive ValidationMax where
  | unlimited
  | finite (n : Nat)
deriving DecidableEq, Inhabited

structure IterationConfig where
  discovery_challenge_max : Nat
  design_decomposition_max : Nat
  decomposition_validation_max : ValidationMax
  min_confidence_score : Nat
deriving DecidableEq, Inhabited

def DEFAULT_ITERATION_CONFIG : IterationConfig :=
  { discovery_challenge_max := 3, design_decomposition_max := 3,
    decomposition_validation_max := .unlimited, min_confidence_score := 100 }

structure PipelinePhases where
  discovery : PhaseState DiscoveryInput DiscoveryOutput
  challenge : PhaseState ChallengeInput ChallengeOutput
  design : PhaseState DesignInput DesignOutput
  decomposition : PhaseState DecompositionInput DecompositionOutput
  validation : PhaseState ValidationInput ValidationOutput
  synthesis : PhaseState SynthesisInput SynthesisOutput
deriving DecidableEq, Inhabited

/-- `PipelineState` (`id` and the clock timestamps are omitted: `id` is a
host-generated UUID and neither is read anywhere). -/
structure PipelineState where
  status : RunStatus
  current_phase : PipelinePhase
  phases : PipelinePhases
  total_iterations : Nat
deriving DecidableEq, Inhabited

/-- Each collaborator, as seen through `execute`: given the number of
earlier calls to that agent (the collaborator is external and stateful)
and the typed input, either return a validated output or fail with the
error message `execute` would throw. -/
structure PipelineAgents where
  discovery : Nat → DiscoveryInput → Except String DiscoveryOutput
  challenge : Nat → ChallengeInput → Except String ChallengeOutput
  design : Nat → DesignInput → Except String DesignOutput
  decomposition : Nat → DecompositionInput → Except String DecompositionOutput
  validation : Nat → ValidationInput → Except String ValidationOutput
  synthesis : Nat → SynthesisInput → Except String SynthesisOutput

structure CallCounts where
  discovery : Nat := 0
  challenge : Nat := 0
  design : Nat := 0
  decomposition : Nat := 0
  validation : Nat := 0
  synthesis : Nat := 0
deriving DecidableEq, Inhabited

/-- Orchestrator instance state: the `PipelineState`, the cooperative
`cancelled` flag, the per-agent call counters (feeding the `Nat` index of
`PipelineAgents`), and a trace of the inputs handed to the validation
agent (observer instrumentation used by the theorems; the code itself
stores only the latest one in `phase.input`). -/
structure OrchSt where
  state : PipelineState
  cancelled : Bool := false
  calls : CallCounts := {}
  valInputs : List ValidationInput := []
deriving Inhabited

/-- The source's `createPhaseState` helper. -/
def createPhaseState (TInput TOutput : Type) (phase : PipelinePhase) (maxIterations : Nat) :
    PhaseState TInput TOutput :=
  { phase := phase, status := .pending, iterations := 0, max_iterations := maxIterations }

/-- `createInitialState` (the `999` stands in for an unlimited validation
budget in `max_iterations`, exactly as in the source). -/
def createInitialState (config : IterationConfig) : PipelineState :=
  { status := .running
    current_phase := .discovery
    phases :=
      { discovery := createPhaseState _ _ .discovery 1
        challenge := createPhaseState _ _ .challenge config.discovery_challenge_max
        design := createPhaseState _ _ .design 1
        decomposition := createPhaseState _ _ .decomposition config.design_decomposition_max
        validation := createPhaseState _ _ .validation
          (match config.decomposition_validation_max with
           | .unlimited => 999
           | .finite n => n)
        synthesis := createPhaseState _ _ .synthesis 1 }
    total_iterations := 0 }

end Orch
end Specky
namespace Specky
namespace Orch

/-! ## `PipelineOrchestrator` phase runners

Event emission (`emit`) only notifies listeners (whose exceptions are
swallowed) and never affects the run; it is not modelled as state. -/

def updDiscovery (s : PipelineState)
    (f : PhaseState DiscoveryInput DiscoveryOutput → PhaseState DiscoveryInput DiscoveryOutput) :
    PipelineState :=
  { s with phases := { s.phases with discovery := f s.phases.discovery } }

def updChallenge (s : PipelineState)
    (f : PhaseState ChallengeInput ChallengeOutput → PhaseState ChallengeInput ChallengeOutput) :
    PipelineState :=
  { s with phases := { s.phases with challenge := f s.phases.challenge } }

def updDesign (s : PipelineState)
    (f : PhaseState DesignInput DesignOutput → PhaseState DesignInput DesignOutput) :
    PipelineState :=
  { s with phases := { s.phases with design := f s.phases.design } }

def updDecomposition (s : PipelineState)
    (f : PhaseState DecompositionInput DecompositionOutput →
      PhaseState DecompositionInput DecompositionOutput) : PipelineState :=
  { s with phases := { s.phases with decomposition := f s.phases.decomposition } }

def updValidation (s : PipelineState)
    (f : PhaseState ValidationInput ValidationOutput →
      PhaseState ValidationInput ValidationOutput) : PipelineState :=
  { s with phases := { s.phases with validation := f s.phases.validation } }

def updSynthesis (s : PipelineState)
    (f : PhaseState SynthesisInput SynthesisOutput →
      PhaseState SynthesisInput SynthesisOutput) : PipelineState :=
  { s with phases := { s.phases with synthesis := f s.phases.synthesis } }

/-! `setPhaseStatus(phase, status)` also records the phase as current. -/

def setDiscoveryStatus (s : PipelineState) (st : PhaseStatus) : PipelineState :=
  { updDiscovery s (fun p => { p with status := st }) with current_phase := .discovery }

def setChallengeStatus (s : PipelineState) (st : PhaseStatus) : PipelineState :=
  { updChallenge s (fun p => { p with status := st }) with current_phase := .challenge }

def setDesignStatus (s : PipelineState) (st : PhaseStatus) : PipelineState :=
  { updDesign s (fun p => { p with status := st }) with current_phase := .design }

def setDecompositionStatus (s : PipelineState) (st : PhaseStatus) : PipelineState :=
  { updDecomposition s (fun p => { p with status := st }) with current_phase := .decomposition }

def setValidationStatus (s : PipelineState) (st : PhaseStatus) : PipelineState :=
  { updValidation s (fun p => { p with status := st }) with current_phase := .validation }

def setSynthesisStatus (s : PipelineState) (st : PhaseStatus) : PipelineState :=
  { updSynthesis s (fun p => { p with status := st }) with current_phase := .synthesis }

def bumpTotal (s : PipelineState) : PipelineState :=
  { s with total_iterations := s.total_iterations + 1 }

def recordOk {I O : Type} (p : PhaseState I O) (output : O) : PhaseState I O :=
  { p with output := some output, iterations := p.iterations + 1 }

/-- Phase 1 runner.  (`phase.input!` is definitely assigned by `start`;
the `getD default` covers Lean totality only.) -/
def runDiscoveryPhase (ag : PipelineAgents) (s : OrchSt) : OrchSt × Except String Unit :=
  let s1 : OrchSt := { s with state := setDiscoveryStatus s.state .running }
  let input := s1.state.phases.discovery.input.getD default
  let idx := s1.calls.discovery
  let s2 : OrchSt := { s1 with calls := { s1.calls with discovery := idx + 1 } }
  match ag.discovery idx input with
  | .ok output =>
      let st := setDiscoveryStatus (updDiscovery s2.state (recordOk · output)) .completed
      ({ s2 with state := st }, .ok ())
  | .error e =>
      let st := setDiscoveryStatus (updDiscovery s2.state ({ · with error := some e })) .failed
      ({ s2 with state := st }, .error e)

/-- The `while (iterations < maxIterations)` loop of `runChallengePhase`;
`remaining = maxIterations - iterations` counts the loop down.  A failure
of the looped-back discovery run propagates through the surrounding
`try`, which also marks the challenge phase failed. -/
def challengeLoop (ag : PipelineAgents) (discoveryOutput : DiscoveryOutput)
    (maxIterations : Nat) :
    Nat → Nat → OrchSt → OrchSt × Except String Unit
  | 0, _, s => ({ s with state := setChallengeStatus s.state .completed }, .ok ())
  | remaining + 1, iterations, s =>
      let status1 := setChallengeStatus s.state (if 0 < iterations then .iterating else .running)
      let input : ChallengeInput :=
        { discovery_output := discoveryOutput
          answered_questions := discoveryOutput.clarifying_questions }
      let st2 := updChallenge status1 ({ · with input := some input })
      let idx := (s.calls).challenge
      let s3 : OrchSt := { s with state := st2, calls := { s.calls with challenge := idx + 1 } }
      match ag.challenge idx input with
      | .ok output =>
          let s4 : OrchSt := { s3 with state := bumpTotal (updChallenge s3.state (recordOk · output)) }
          if output.needs_discovery_loop && iterations + 1 < maxIterations then
            match runDiscoveryPhase ag s4 with
            | (s5, .ok _) =>
                challengeLoop ag discoveryOutput maxIterations remaining (iterations + 1) s5
            | (s5, .error e) =>
                let st := setChallengeStatus (updChallenge s5.state ({ · with error := some e })) .failed
                ({ s5 with state := st }, .error e)
          else
            ({ s4 with state := setChallengeStatus s4.state .completed }, .ok ())
      | .error e =>
          let st := setChallengeStatus (updChallenge s3.state ({ · with error := some e })) .failed
          ({ s3 with state := st }, .error e)

/-- Phase 2 runner: captures the discovery output once, before the loop. -/
def runChallengePhase (ag : PipelineAgents) (config : IterationConfig) (s : OrchSt) :
    OrchSt × Except String Unit :=
  challengeLoop ag (s.state.phases.discovery.output.getD default)
    config.discovery_challenge_max config.discovery_challenge_max 0 s

/-- Phase 3 runner. -/
def runDesignPhase (ag : PipelineAgents) (s : OrchSt) : OrchSt × Except String Unit :=
  let challengeOutput := s.state.phases.challenge.output.getD default
  let discoveryOutput := s.state.phases.discovery.output.getD default
  let status1 := setDesignStatus s.state .running
  let input : DesignInput :=
    { requirements := challengeOutput.requirements_challenged
      verified_tech := discoveryOutput.mentioned_tech
      challenges := challengeOutput.challenges }
  let st2 := updDesign status1 ({ · with input := some input })
  let idx := s.calls.design
  let s3 : OrchSt := { s with state := st2, calls := { s.calls with design := idx + 1 } }
  match ag.design idx input with
  | .ok output =>
      let st := setDesignStatus (bumpTotal (updDesign s3.state (recordOk · output))) .completed
      ({ s3 with state := st }, .ok ())
  | .error e =>
      let st := setDesignStatus (updDesign s3.state ({ · with error := some e })) .failed
      ({ s3 with state := st }, .error e)

/-- The `while (iterations < maxIterations)` loop of
`runDecompositionPhase` (loop-back target: design). -/
def decompositionLoop (ag : PipelineAgents) (designOutput : DesignOutput)
    (challengeOutput : ChallengeOutput) (maxIterations : Nat) :
    Nat → Nat → OrchSt → OrchSt × Except String Unit
  | 0, _, s => ({ s with state := setDecompositionStatus s.state .completed }, .ok ())
  | remaining + 1, iterations, s =>
      let status1 :=
        setDecompositionStatus s.state (if 0 < iterations then .iterating else .running)
      let input : DecompositionInput :=
        { design := designOutput
          requirements := challengeOutput.requirements_challenged }
      let st2 := updDecomposition status1 ({ · with input := some input })
      let idx := s.calls.decomposition
      let s3 : OrchSt := { s with state := st2, calls := { s.calls with decomposition := idx + 1 } }
      match ag.decomposition idx input with
      | .ok output =>
          let s4 : OrchSt :=
            { s3 with state := bumpTotal (updDecomposition s3.state (recordOk · output)) }
          if output.has_non_atomic_tasks && iterations + 1 < maxIterations then
            match runDesignPhase ag s4 with
            | (s5, .ok _) =>
                decompositionLoop ag designOutput challengeOutput maxIterations remaining
                  (iterations + 1) s5
            | (s5, .error e) =>
                let st := setDecompositionStatus
                  (updDecomposition s5.state ({ · with error := some e })) .failed
                ({ s5 with state := st }, .error e)
          else
            ({ s4 with state := setDecompositionStatus s4.state .completed }, .ok ())
      | .error e =>
          let st := setDecompositionStatus
            (updDecomposition s3.state ({ · with error := some e })) .failed
          ({ s3 with state := st }, .error e)

/-- Phase 4 runner: captures the design and challenge outputs once, before
the loop. -/
def runDecompositionPhase (ag : PipelineAgents) (config : IterationConfig) (s : OrchSt) :
    OrchSt × Except String Unit :=
  decompositionLoop ag (s.state.phases.design.output.getD default)
    (s.state.phases.challenge.output.getD default)
    config.design_decomposition_max config.design_decomposition_max 0 s

/-- JS truthiness of `xs?.length` for an optional array. -/
def truthyStrList : Option (List String) → Bool
  | some l => l.length ≠ 0
  | none => false

/-- `output.loop_targets?.design_issues?.length`. -/
def designBlame (o : ValidationOutput) : Bool :=
  match o.loop_targets with
  | some lt => truthyStrList lt.design_issues
  | none => false

/-- `output.loop_targets?.decomposition_issues?.length`. -/
def decompositionBlame (o : ValidationOutput) : Bool :=
  match o.loop_targets with
  | some lt => truthyStrList lt.decomposition_issues
  | none => false

def failValidationWith (s : OrchSt) (e : String) : OrchSt :=
  let st := setValidationStatus (updValidation s.state ({ · with error := some e })) .failed
  { s with state := st }

/-- The `while (true)` loop of `runValidationPhase`, bounded by a fuel in
Lean (`none` = fuel exhausted before the JS loop would have returned;
every theorem below supplies enough fuel for the modelled run to finish).
The captured `decompositionOutput`/`designOutput` are the values of the
`const` bindings taken at phase entry, exactly as in the source. -/
def validationLoop (ag : PipelineAgents) (config : IterationConfig)
    (decompositionOutput : DecompositionOutput) (designOutput : DesignOutput) :
    Nat → Nat → OrchSt → Option (OrchSt × Except String Unit)
  | 0, _, _ => none
  | fuel + 1, iterations, s =>
      let status1 := setValidationStatus s.state (if 0 < iterations then .iterating else .running)
      let input : ValidationInput :=
        { stories := decompositionOutput.stories
          schemas := designOutput.schemas
          decisions := designOutput.decisions
          dependency_dag := decompositionOutput.dependency_dag }
      let st2 := updValidation status1 ({ · with input := some input })
      let idx := s.calls.validation
      let calls3 := { s.calls with validation := idx + 1 }
      let s3 : OrchSt := { s with state := st2, calls := calls3, valInputs := s.valInputs ++ [input] }
      match ag.validation idx input with
      | .ok output =>
          let s4 : OrchSt :=
            { s3 with state := bumpTotal (updValidation s3.state (recordOk · output)) }
          if output.passes then
            some ({ s4 with state := setValidationStatus s4.state .completed }, .ok ())
          else
            let budgetExceeded :=
              match config.decomposition_validation_max with
              | .finite n => decide (n ≤ iterations + 1)
              | .unlimited => false
            if budgetExceeded then
              let msg := "Failed to reach 100% confidence after " ++
                toString (iterations + 1) ++ " iterations"
              some (failValidationWith s4 msg, .error msg)
            else if designBlame output then
              match runDesignPhase ag s4 with
              | (s5, .error e) => some (failValidationWith s5 e, .error e)
              | (s5, .ok _) =>
                  match runDecompositionPhase ag config s5 with
                  | (s6, .error e) => some (failValidationWith s6 e, .error e)
                  | (s6, .ok _) =>
                      validationLoop ag config decompositionOutput designOutput fuel
                        (iterations + 1) s6
            else if decompositionBlame output then
              match runDecompositionPhase ag config s4 with
              | (s5, .error e) => some (failValidationWith s5 e, .error e)
              | (s5, .ok _) =>
                  validationLoop ag config decompositionOutput designOutput fuel
                    (iterations + 1) s5
            else
              validationLoop ag config decompositionOutput designOutput fuel
                (iterations + 1) s4
      | .error e => some (failValidationWith s3 e, .error e)

/-- Phase 5 runner: captures the decomposition and design outputs once,
before the loop. -/
def runValidationPhase (ag : PipelineAgents) (config : IterationConfig) (fuel : Nat)
    (s : OrchSt) : Option (OrchSt × Except String Unit) :=
  validationLoop ag config (s.state.phases.decomposition.output.getD default)
    (s.state.phases.design.output.getD default) fuel 0 s

/-- Phase 6 runner. -/
def runSynthesisPhase (ag : PipelineAgents) (s : OrchSt) :
    OrchSt × Except String SynthesisOutput :=
  let status1 := setSynthesisStatus s.state .running
  let input : SynthesisInput :=
    { discovery := s.state.phases.discovery.output.getD default
      challenge := s.state.phases.challenge.output.getD default
      design := s.state.phases.design.output.getD default
      decomposition := s.state.phases.decomposition.output.getD default
      validation := s.state.phases.validation.output.getD default }
  let st2 := updSynthesis status1 ({ · with input := some input })
  let idx := s.calls.synthesis
  let s3 : OrchSt := { s with state := st2, calls := { s.calls with synthesis := idx + 1 } }
  match ag.synthesis idx input with
  | .ok output =>
      let st := setSynthesisStatus (bumpTotal (updSynthesis s3.state (recordOk · output))) .completed
      ({ s3 with state := st }, .ok output)
  | .error e =>
      let st := setSynthesisStatus (updSynthesis s3.state ({ · with error := some e })) .failed
      ({ s3 with state := st }, .error e)

def failPipeline (s : OrchSt) : OrchSt :=
  { s with state := { s.state with status := .failed } }

/-- The orchestrator state right after `start`'s preamble (status set to
running, the initial input stored on the discovery phase). -/
def startState (config : IterationConfig) (input : DiscoveryInput) : OrchSt :=
  { state := updDiscovery { createInitialState config with status := .running }
      ({ · with input := some input }) }

/-- `start(input)`: the six-phase sequence with cooperative-cancellation
checks at phase boundaries; any phase error is caught at the top, marks
the pipeline failed and is rethrown.  `none` = the validation loop's Lean
fuel ran out. -/
def start (ag : PipelineAgents) (config : IterationConfig) (fuel : Nat)
    (input : DiscoveryInput) : Option (OrchSt × Except String SpecPack) :=
  match runDiscoveryPhase ag (startState config input) with
  | (s1, .error e) => some (failPipeline s1, .error e)
  | (s1, .ok _) =>
  if s1.cancelled then some (failPipeline s1, .error "Pipeline cancelled") else
  match runChallengePhase ag config s1 with
  | (s2, .error e) => some (failPipeline s2, .error e)
  | (s2, .ok _) =>
  if s2.cancelled then some (failPipeline s2, .error "Pipeline cancelled") else
  match runDesignPhase ag s2 with
  | (s3, .error e) => some (failPipeline s3, .error e)
  | (s3, .ok _) =>
  if s3.cancelled then some (failPipeline s3, .error "Pipeline cancelled") else
  match runDecompositionPhase ag config s3 with
  | (s4, .error e) => some (failPipeline s4, .error e)
  | (s4, .ok _) =>
  if s4.cancelled then some (failPipeline s4, .error "Pipeline cancelled") else
  match runValidationPhase ag config fuel s4 with
  | none => none
  | some (s5, .error e) => some (failPipeline s5, .error e)
  | some (s5, .ok _) =>
  if s5.cancelled then some (failPipeline s5, .error "Pipeline cancelled") else
  match runSynthesisPhase ag s5 with
  | (s6, .error e) => some (failPipeline s6, .error e)
  | (s6, .ok output) =>
  if s6.cancelled then some (failPipeline s6, .error "Pipeline cancelled") else
  some ({ s6 with state := { s6.state with status := .completed } }, .ok output.spec_pack)

end Orch
end Specky
namespace Specky

/-! ## Theorems -/

/-- C1: for every validation input (and host environment and regex state),
the `QualityReport` produced by `validateAll` has a confidence score equal
to the minimum of the five category scores of its breakdown (completeness,
citations, atomic, schemas, dag), and its `passes` field is true if and
only if that confidence score equals 100. -/
theorem validateAll_confidence_is_min_and_passes_iff_100
    (env : JsEnv) (input : ValidationInput) (st : RegexSt) :
    ((validateAll env input st).1.confidence_score =
      min (min (min (min (validateAll env input st).1.breakdown.completeness.score
          (validateAll env input st).1.breakdown.citations.score)
          (validateAll env input st).1.breakdown.atomic.score)
          (validateAll env input st).1.breakdown.schemas.score)
        (validateAll env input st).1.breakdown.dag.score) ∧
    ((validateAll env input st).1.passes = true ↔
      (validateAll env input st).1.confidence_score = 100) := by
  simp only [validateAll, jsMinList, List.foldl]
  constructor
  · omega
  · simp [beq_iff_eq]

/-- The foldl accumulator of `validateAtomic`, described in closed form. -/
theorem validateAtomic_foldl (stories : List Story) (init : List ValidationIssue × List String) :
    stories.foldl
      (fun acc story =>
        let issues := validateStoryAtomic story
        if issues.length ≠ 0 then (acc.1 ++ issues, acc.2 ++ [story.id]) else acc)
      init =
    (init.1 ++ stories.flatMap validateStoryAtomic,
     init.2 ++ (stories.filter
        (fun s => decide (MAX_FILES_PER_TASK < countFilesAffected s))).map Story.id) := by
  induction stories generalizing init with
  | nil => simp
  | cons s rest ih =>
      simp only [List.foldl_cons, List.flatMap_cons, List.filter_cons]
      by_cases h : MAX_FILES_PER_TASK < countFilesAffected s
      · have hiss : validateStoryAtomic s ≠ [] := by
          simp [validateStoryAtomic, h]
        rw [ih]
        simp [validateStoryAtomic, h, List.append_assoc]
      · have hiss : validateStoryAtomic s = [] := by
          simp [validateStoryAtomic, h]
        rw [ih]
        simp [hiss, h]

/-- C6: `validateAtomic` returns score 100 if every story's count of
distinct file paths (declared affected files ∪ step file paths) is at most
3, and otherwise score 0 together with an error-severity issue located at
each violating story. -/
theorem validateAtomic_score_and_issues (stories : List Story) :
    ((validateAtomic stories).score =
      if stories.all (fun s => decide (countFilesAffected s ≤ MAX_FILES_PER_TASK))
      then 100 else 0) ∧
    ∀ s ∈ stories, MAX_FILES_PER_TASK < countFilesAffected s →
      ∃ i ∈ (validateAtomic stories).issues, i.severity = .error ∧ i.location = s.id := by
  constructor
  · simp only [validateAtomic, validateAtomic_foldl]
    by_cases h : stories.all (fun s => decide (countFilesAffected s ≤ MAX_FILES_PER_TASK))
    · have hnil : stories.filter (fun s => decide (MAX_FILES_PER_TASK < countFilesAffected s)) = [] := by
        rw [List.filter_eq_nil_iff]
        intro a ha
        simp only [List.all_eq_true] at h
        have := h a ha
        simp_all
      simp [h, hnil]
    · have hne : (stories.filter (fun s => decide (MAX_FILES_PER_TASK < countFilesAffected s))).length ≠ 0 := by
        simp only [List.all_eq_true, not_forall] at h
        obtain ⟨a, ha, hcount⟩ := h
        simp only [ne_eq, List.length_eq_zero, List.filter_eq_nil_iff, not_forall]
        exact ⟨a, ha, by simpa using hcount⟩
      simp only [h, if_false]
      simp [hne]
  · intro s hs hcount
    have hiss : validateStoryAtomic s =
        [ { severity := .error, category := .atomic,
            message := "Story " ++ s.id ++ " touches " ++ toString (countFilesAffected s) ++
              " files (max: " ++ toString MAX_FILES_PER_TASK ++ ")",
            location := s.id,
            suggestion := some ("Split into " ++
              toString ((countFilesAffected s + MAX_FILES_PER_TASK - 1) / MAX_FILES_PER_TASK) ++
              " smaller stories. Files affected: " ++
              String.intercalate ", " (getFilesAffected s)) } ] := by
      simp [validateStoryAtomic, hcount]
    have hmem : ∀ i ∈ validateStoryAtomic s, i.severity = .error ∧ i.location = s.id := by
      intro i hi
      rw [hiss] at hi
      simp only [List.mem_singleton] at hi
      subst hi
      exact ⟨rfl, rfl⟩
    have hne : validateStoryAtomic s ≠ [] := by rw [hiss]; simp
    obtain ⟨i, hi⟩ := List.exists_mem_of_ne_nil _ hne
    refine ⟨i, ?_, (hmem i hi).1, (hmem i hi).2⟩
    simp only [validateAtomic, validateAtomic_foldl, List.nil_append, List.mem_flatMap]
    exact ⟨s, hs, hi⟩

/-- The spec's example story: four steps touching `a.ts`, `b.ts`, `c.ts`,
`d.ts` (4 distinct paths). -/
def storyFourFiles : Story :=
  { id := "S1-001", title := "t", sprint := "sp", domain := "d", status := .pending,
    agent_type := .general_purpose, estimated_effort := .S, blocked_by := [], blocks := [],
    task_ids := 4,
    steps :=
      [ { step_id := 1, title := "a", file_path := "a.ts", action := .CREATE, code := "x", verification := "v" },
        { step_id := 2, title := "b", file_path := "b.ts", action := .CREATE, code := "x", verification := "v" },
        { step_id := 3, title := "c", file_path := "c.ts", action := .CREATE, code := "x", verification := "v" },
        { step_id := 4, title := "d", file_path := "d.ts", action := .CREATE, code := "x", verification := "v" } ],
    files_affected := [], acceptance_criteria := [] }

/-- Witness for C6 at the spec's own example: the 4-file story makes the
category score 0 with an error-severity issue on the story. -/
theorem validateAtomic_score_and_issues_witness :
    MAX_FILES_PER_TASK < countFilesAffected storyFourFiles ∧
    (validateAtomic [storyFourFiles]).score = 0 ∧
    ∃ i ∈ (validateAtomic [storyFourFiles]).issues,
      i.severity = .error ∧ i.location = storyFourFiles.id := by
  refine ⟨by decide, ?_,
    (validateAtomic_score_and_issues [storyFourFiles]).2 storyFourFiles (by simp) (by decide)⟩
  have h := (validateAtomic_score_and_issues [storyFourFiles]).1
  rw [h]
  decide

/-- All-fail closed form for the retry loop of `executeWithRetry`. -/
theorem executeWithRetryGo_all_fail {I O : Type} (ag : AgentBehavior I O) (input : I)
    (e : Nat → String) :
    ∀ (r attempt : Nat) (lastErr : Option String) (retries : Nat),
      (∀ k, attempt ≤ k → k ≤ attempt + r → attemptOnce ag input k = .error (e k)) →
      executeWithRetryGo ag input (r + 1) attempt lastErr retries =
        ({ success := false, error := some (e (attempt + r)), retries := retries + r + 1 },
          r + 1) := by
  intro r
  induction r with
  | zero =>
      intro attempt lastErr retries hfail
      have h0 := hfail attempt (Nat.le_refl _) (Nat.le_refl _)
      simp [executeWithRetryGo, h0]
  | succ r ih =>
      intro attempt lastErr retries hfail
      have h0 := hfail attempt (Nat.le_refl _) (Nat.le_add_right _ _)
      have hrest := ih (attempt + 1) (some (e attempt)) (retries + 1)
        (fun k hk1 hk2 => hfail k (Nat.le_of_succ_le hk1) (by omega))
      rw [executeWithRetryGo.eq_def]
      dsimp only
      rw [h0]
      dsimp only
      rw [hrest]
      have h1 : attempt + 1 + r = attempt + (r + 1) := by omega
      have h2 : retries + 1 + r + 1 = retries + (r + 1) + 1 := by omega
      rw [h1, h2]

/-- C3: for a collaborator whose call fails on every attempt (transport
error, unparsable response, or failed shape validation all surface through
`attemptOnce`), the Agent Invoker makes exactly `maxRetries + 1` attempts
and `execute` then raises the last error. -/
theorem agent_invoker_retry_bound {I O : Type} (ag : AgentBehavior I O)
    (config : RetryConfig) (input : I) (e : Nat → String)
    (hfail : ∀ k, k ≤ config.maxRetries → attemptOnce ag input k = .error (e k))
    (hlast : e config.maxRetries ≠ "") :
    (executeWithRetry ag config input).2 = config.maxRetries + 1 ∧
    (executeWithRetry ag config input).1.success = false ∧
    (executeWithRetry ag config input).1.retries = config.maxRetries + 1 ∧
    execute ag config input = .error (e config.maxRetries) := by
  have hgo := executeWithRetryGo_all_fail ag input e config.maxRetries 0 none 0
    (fun k _ hk2 => hfail k (by omega))
  have hew : executeWithRetry ag config input =
      ({ success := false, error := some (e (0 + config.maxRetries)),
         retries := 0 + config.maxRetries + 1 }, config.maxRetries + 1) := hgo
  refine ⟨by simp [hew], by simp [hew], by simp [hew], ?_⟩
  simp only [execute, hew]
  simp [jsOrString, hlast]

/-- A collaborator that always fails in transport. -/
def alwaysFailingAgent : AgentBehavior Unit Unit :=
  { invokeLLM := fun _ _ => .error "boom",
    parse := fun _ => .error "parse error",
    validateOutput := fun _ => false }

/-- Witness for C3 at the default retry configuration (`maxRetries = 3`):
exactly 4 attempts, and the last error is raised. -/
theorem agent_invoker_retry_bound_witness :
    (executeWithRetry alwaysFailingAgent DEFAULT_RETRY_CONFIG ()).2 =
      DEFAULT_RETRY_CONFIG.maxRetries + 1 ∧
    execute alwaysFailingAgent DEFAULT_RETRY_CONFIG () = .error "boom" :=
  ⟨(agent_invoker_retry_bound alwaysFailingAgent DEFAULT_RETRY_CONFIG ()
      (fun _ => "boom") (fun _ _ => rfl) (by decide)).1,
   (agent_invoker_retry_bound alwaysFailingAgent DEFAULT_RETRY_CONFIG ()
      (fun _ => "boom") (fun _ _ => rfl) (by decide)).2.2.2⟩

/-- C9 (code bug): validator computations are not two-run deterministic.
`hasIncompleteCode` shares the module-level `g`-flagged regexes and
early-returns without resetting `lastIndex`, so calling it twice on the
identical input `"..."` yields `true` then `false`; through the schema
checker the same input `{s: "..."}` scores 0 on a first `validateSchemas`
run and 100 on an identical second run. -/
theorem hasIncompleteCode_two_run_nondeterminism :
    (hasIncompleteCode "..." regexInit).1 = true ∧
    (hasIncompleteCode "..." (hasIncompleteCode "..." regexInit).2).1 = false ∧
    (validateSchemas [("s", "...")] regexInit).1.score = 0 ∧
    (validateSchemas [("s", "...")] (validateSchemas [("s", "...")] regexInit).2).1.score = 100 := by
  decide

/-- A host environment pinning the behaviour of `new URL` / `Date.parse`
on the concrete strings used by the C8 evaluation. -/
def envSingleAlt : JsEnv :=
  { urlProtocol := fun u => if u = "https://react.dev" then some "https:" else none,
    dateParse := fun d => if d = "2026-01-10" then some 1768003200000 else none,
    nowMs := 1768608000000,
    isoNow := "2026-01-17T00:00:00.000Z" }

/-- A decision with a valid, fresh citation but only one rejected
alternative. -/
def decisionSingleAlt : DesignDecision :=
  { id := "D1", topic := "Framework", decision := "React",
    alternatives_considered := [{ option := "Vue", rejected_because := "smaller ecosystem" }],
    challenger_objection := "", response := "",
    verified_at := "2026-01-10", verification_source := "https://react.dev" }

/-- C8 (code bug): the Citation Checker does not enforce "at least two
rejected alternatives".  A decision with exactly one rejected alternative
(and a valid URL and fresh date) produces no issue at all — the
alternatives check in `validateDecision` fires only when the list is
empty, contradicting the claim and the checker's own requirement text
("Document at least 2 alternatives that were considered"). -/
theorem citation_checker_accepts_single_alternative :
    decisionSingleAlt.alternatives_considered.length = 1 ∧
    validateDecision envSingleAlt decisionSingleAlt = [] ∧
    (validateCitations envSingleAlt [decisionSingleAlt] none).issues = [] ∧
    (validateCitations envSingleAlt [decisionSingleAlt] none).score = 100 := by
  decide

end Specky
namespace Specky
namespace Orch

/-- A story whose identity records which decomposition call produced it. -/
def storyOfCall (k : Nat) : Story :=
  { id := "S" ++ toString k, title := "t", sprint := "sp", domain := "d", status := .pending,
    agent_type := .general_purpose, estimated_effort := .S, blocked_by := [], blocks := [],
    task_ids := 0, steps := [], files_affected := [], acceptance_criteria := [] }

def chOutNoLoop : ChallengeOutput :=
  { challenges := [], requirements_challenged := default, needs_discovery_loop := false }

def desOutFixed : DesignOutput :=
  { architecture := "a", tech_stack := default, file_structure := "f", decisions := [],
    schemas := [], needs_refinement := false }

/-- Decomposition collaborator returning different stories on each call. -/
def decOutOfCall (k : Nat) : DecompositionOutput :=
  { sprints := [], stories := [storyOfCall k], dependency_dag := [], has_non_atomic_tasks := false }

/-- Validation collaborator that never passes and blames decomposition. -/
def valOutBlameDecomposition : ValidationOutput :=
  { quality_report := default, passes := false,
    loop_targets := some { decomposition_issues := some ["split S0 further"] } }

def agentsStaleDemo : PipelineAgents :=
  { discovery := fun _ _ => .ok default
    challenge := fun _ _ => .ok chOutNoLoop
    design := fun _ _ => .ok desOutFixed
    decomposition := fun k _ => .ok (decOutOfCall k)
    validation := fun _ _ => .ok valOutBlameDecomposition
    synthesis := fun _ _ => .error "unreached" }

def configStaleDemo : IterationConfig :=
  { discovery_challenge_max := 3, design_decomposition_max := 3,
    decomposition_validation_max := .finite 2, min_confidence_score := 100 }

/-- C2 (code bug): when the validation report blames decomposition, the
orchestrator does re-run decomposition and then re-validate, but the
re-validation is built from the `const decompositionOutput` captured at
validation-phase entry, not from the re-run phase's output.  In this run
the decomposition agent produced stories `[S0]` on its first call and
`[S1]` on its forced re-run (the phase's recorded output and its
2 iterations show the re-run happened), yet both validation calls
received stories `[S0]`. -/
theorem validation_loop_revalidates_stale_outputs :
    (start agentsStaleDemo configStaleDemo 2 { user_prompt := "p" }).map
      (fun p => (p.1.valInputs.map (fun v => v.stories),
        (p.1.state.phases.decomposition.output.getD default).stories,
        p.1.state.phases.decomposition.iterations)) =
      some ([[storyOfCall 0], [storyOfCall 0]], [storyOfCall 1], 2) ∧
    [storyOfCall 0] ≠ [storyOfCall 1] := by
  constructor
  · decide
  · decide

end Orch
end Specky
namespace Specky
namespace Orch

/-- A discovery collaborator that always succeeds lets the discovery phase
complete, bumping only its own iteration counter. -/
theorem runDiscoveryPhase_ok (ag : PipelineAgents)
    (hdisc : ∀ k i, ∃ out, ag.discovery k i = .ok out)
    (s s' : OrchSt) (res : Except String Unit)
    (heq : runDiscoveryPhase ag s = (s', res)) :
    res = .ok () ∧
    s'.state.phases.discovery.iterations = s.state.phases.discovery.iterations + 1 ∧
    s'.state.phases.challenge = s.state.phases.challenge ∧
    s'.state.phases.design = s.state.phases.design ∧
    s'.state.phases.decomposition = s.state.phases.decomposition ∧
    s'.state.phases.validation = s.state.phases.validation ∧
    s'.state.status = s.state.status ∧
    s'.valInputs = s.valInputs ∧
    s'.cancelled = s.cancelled := by
  obtain ⟨out, hout⟩ := hdisc s.calls.discovery (s.state.phases.discovery.input.getD default)
  have hthis : runDiscoveryPhase ag s = (s', res) := heq
  simp [runDiscoveryPhase, setDiscoveryStatus, updDiscovery, recordOk, hout] at hthis
  obtain ⟨h1, h2⟩ := hthis
  subst h1 h2
  simp

/-- While every challenge output requests a discovery loop-back, the
challenge loop consumes its whole budget: each of the `r` remaining
iterations runs challenge once and (except for the last) discovery once,
and the phase then completes successfully. -/
theorem challengeLoop_all_loop (ag : PipelineAgents) (dOut : DiscoveryOutput) (m : Nat)
    (hdisc : ∀ k i, ∃ out, ag.discovery k i = .ok out)
    (hch : ∀ k i, ∃ out, ag.challenge k i = .ok out ∧ out.needs_discovery_loop = true) :
    ∀ (r iterations : Nat) (s : OrchSt), iterations + r = m → 1 ≤ r →
      (challengeLoop ag dOut m r iterations s).2 = .ok () ∧
      (challengeLoop ag dOut m r iterations s).1.state.phases.discovery.iterations =
        s.state.phases.discovery.iterations + (r - 1) ∧
      (challengeLoop ag dOut m r iterations s).1.state.phases.challenge.iterations =
        s.state.phases.challenge.iterations + r ∧
      (challengeLoop ag dOut m r iterations s).1.state.phases.challenge.status = .completed ∧
      (challengeLoop ag dOut m r iterations s).1.state.status = s.state.status := by
  intro r
  induction r with
  | zero => intro iterations s _ h1; omega
  | succ r ih =>
      intro iterations s hsum _
      obtain ⟨out, hout, hneeds⟩ := hch s.calls.challenge
        { discovery_output := dOut, answered_questions := dOut.clarifying_questions }
      by_cases hlast : r = 0
      · subst hlast
        have hcond : ¬ (iterations + 1 < m) := by omega
        simp [challengeLoop, setChallengeStatus, updChallenge, bumpTotal, recordOk,
          hout, hneeds, hcond]
      · have hcond : iterations + 1 < m := by omega
        simp only [challengeLoop, setChallengeStatus, updChallenge, bumpTotal, recordOk, hout,
          hneeds, hcond]
        rw [if_pos (by simp)]
        split
        case _ s5 a heq =>
          have hd := runDiscoveryPhase_ok ag hdisc _ _ _ heq
          have hih := ih (iterations + 1) s5 (by omega) (by omega)
          refine ⟨hih.1, ?_, ?_, hih.2.2.2.1, ?_⟩
          · rw [hih.2.1, hd.2.1]
            simp
            omega
          · rw [hih.2.2.1, hd.2.2.1]
            simp
            omega
          · rw [hih.2.2.2.2, hd.2.2.2.2.2.2.1]
        case _ s5 e heq =>
          have hd := runDiscoveryPhase_ok ag hdisc _ _ _ heq
          simp at hd

/-- C4: if every challenge output carries a true needs-discovery-loop
signal (and the collaborators keep answering), a pipeline entering the
discovery/challenge pair executes the discovery phase exactly
`discovery_challenge_max` times, after which the challenge phase completes
and the run proceeds without failing (soft cap). -/
theorem discovery_challenge_soft_cap (ag : PipelineAgents) (config : IterationConfig)
    (input : DiscoveryInput) (m : Nat)
    (hm : config.discovery_challenge_max = m) (hm1 : 1 ≤ m)
    (hdisc : ∀ k i, ∃ out, ag.discovery k i = .ok out)
    (hch : ∀ k i, ∃ out, ag.challenge k i = .ok out ∧ out.needs_discovery_loop = true) :
    (runDiscoveryPhase ag (startState config input)).2 = .ok () ∧
    (runChallengePhase ag config (runDiscoveryPhase ag (startState config input)).1).2 = .ok () ∧
    (runChallengePhase ag config
        (runDiscoveryPhase ag (startState config input)).1).1.state.phases.discovery.iterations = m ∧
    (runChallengePhase ag config
        (runDiscoveryPhase ag (startState config input)).1).1.state.phases.challenge.iterations = m ∧
    (runChallengePhase ag config
        (runDiscoveryPhase ag (startState config input)).1).1.state.phases.challenge.status = .completed ∧
    (runChallengePhase ag config
        (runDiscoveryPhase ag (startState config input)).1).1.state.status = .running := by
  rcases heq0 : runDiscoveryPhase ag (startState config input) with ⟨s1, r1⟩
  have hd := runDiscoveryPhase_ok ag hdisc _ _ _ heq0
  have hs0disc : (startState config input).state.phases.discovery.iterations = 0 := by
    simp [startState, updDiscovery, createInitialState, createPhaseState]
  have hs0chal : (startState config input).state.phases.challenge.iterations = 0 := by
    simp [startState, updDiscovery, createInitialState, createPhaseState]
  have hs0status : (startState config input).state.status = .running := by
    simp [startState, updDiscovery, createInitialState]
  have hc := challengeLoop_all_loop ag (s1.state.phases.discovery.output.getD default) m
    hdisc hch m 0 s1 (by omega) hm1
  simp only [runChallengePhase, hm]
  refine ⟨hd.1, hc.1, ?_, ?_, hc.2.2.2.1, ?_⟩
  · rw [hc.2.1, hd.2.1, hs0disc]
    omega
  · rw [hc.2.2.1]
    rw [show s1.state.phases.challenge = (startState config input).state.phases.challenge from hd.2.2.1]
    rw [hs0chal]
    omega
  · rw [hc.2.2.2.2, hd.2.2.2.2.2.2.1, hs0status]

/-- A challenge collaborator that always asks to loop back to discovery. -/
def chOutAlwaysLoop : ChallengeOutput :=
  { challenges := [], requirements_challenged := default, needs_discovery_loop := true,
    loop_reason := some "needs more discovery" }

def agentsAlwaysLoop : PipelineAgents :=
  { discovery := fun _ _ => .ok default
    challenge := fun _ _ => .ok chOutAlwaysLoop
    design := fun _ _ => .error "unreached"
    decomposition := fun _ _ => .error "unreached"
    validation := fun _ _ => .error "unreached"
    synthesis := fun _ _ => .error "unreached" }

/-- Witness for C4 at the default budget (`discovery_challenge_max = 3`):
discovery executes exactly 3 times, challenge completes, the run goes on. -/
theorem discovery_challenge_soft_cap_witness :
    (runChallengePhase agentsAlwaysLoop DEFAULT_ITERATION_CONFIG
        (runDiscoveryPhase agentsAlwaysLoop
          (startState DEFAULT_ITERATION_CONFIG { user_prompt := "p" })).1).1.state.phases.discovery.iterations = 3 ∧
    (runChallengePhase agentsAlwaysLoop DEFAULT_ITERATION_CONFIG
        (runDiscoveryPhase agentsAlwaysLoop
          (startState DEFAULT_ITERATION_CONFIG { user_prompt := "p" })).1).1.state.phases.challenge.status = .completed ∧
    (runChallengePhase agentsAlwaysLoop DEFAULT_ITERATION_CONFIG
        (runDiscoveryPhase agentsAlwaysLoop
          (startState DEFAULT_ITERATION_CONFIG { user_prompt := "p" })).1).2 = .ok () := by
  have h := discovery_challenge_soft_cap agentsAlwaysLoop DEFAULT_ITERATION_CONFIG
    { user_prompt := "p" } 3 rfl (by decide)
    (fun _ _ => ⟨default, rfl⟩) (fun _ _ => ⟨chOutAlwaysLoop, rfl, rfl⟩)
  exact ⟨h.2.2.1, h.2.2.2.2.1, h.2.1⟩

end Orch
end Specky
namespace Specky
namespace Orch

/-- With a challenge collaborator that succeeds and never requests a
loop-back, the challenge loop completes at once (or, on a zero budget,
immediately), leaving the validation phase, pipeline status and
cancellation flag untouched. -/
theorem challengeLoop_no_loop (ag : PipelineAgents) (dOut : DiscoveryOutput) (m : Nat)
    (hch : ∀ k i, ∃ out, ag.challenge k i = .ok out ∧ out.needs_discovery_loop = false)
    (r iterations : Nat) (s s' : OrchSt) (res : Except String Unit)
    (heq : challengeLoop ag dOut m r iterations s = (s', res)) :
    res = .ok () ∧
    s'.state.phases.validation = s.state.phases.validation ∧
    s'.state.status = s.state.status ∧
    s'.cancelled = s.cancelled := by
  cases r with
  | zero =>
      have hthis : challengeLoop ag dOut m 0 iterations s = (s', res) := heq
      simp [challengeLoop, setChallengeStatus, updChallenge] at hthis
      obtain ⟨h1, h2⟩ := hthis
      subst h1 h2
      simp [setChallengeStatus, updChallenge]
  | succ r =>
      obtain ⟨out, hout, hloop⟩ := hch s.calls.challenge
        { discovery_output := dOut, answered_questions := dOut.clarifying_questions }
      have hthis : challengeLoop ag dOut m (r + 1) iterations s = (s', res) := heq
      simp [challengeLoop, setChallengeStatus, updChallenge, bumpTotal, recordOk,
        hout, hloop] at hthis
      obtain ⟨h1, h2⟩ := hthis
      subst h1 h2
      simp

/-- A design collaborator that always succeeds lets the design phase
complete, leaving the validation phase, pipeline status and cancellation
flag untouched. -/
theorem runDesignPhase_ok (ag : PipelineAgents)
    (hdes : ∀ k i, ∃ out, ag.design k i = .ok out)
    (s s' : OrchSt) (res : Except String Unit)
    (heq : runDesignPhase ag s = (s', res)) :
    res = .ok () ∧
    s'.state.phases.validation = s.state.phases.validation ∧
    s'.state.status = s.state.status ∧
    s'.cancelled = s.cancelled := by
  obtain ⟨out, hout⟩ := hdes s.calls.design
    { requirements := (s.state.phases.challenge.output.getD default).requirements_challenged,
      verified_tech := (s.state.phases.discovery.output.getD default).mentioned_tech,
      challenges := (s.state.phases.challenge.output.getD default).challenges }
  have hthis : runDesignPhase ag s = (s', res) := heq
  simp [runDesignPhase, setDesignStatus, updDesign, bumpTotal, recordOk, hout] at hthis
  obtain ⟨h1, h2⟩ := hthis
  subst h1 h2
  simp

/-- With a decomposition collaborator that succeeds and never reports
non-atomic tasks, the decomposition loop completes at once (or, on a zero
budget, immediately), leaving the validation phase, pipeline status and
cancellation flag untouched. -/
theorem decompositionLoop_no_non_atomic (ag : PipelineAgents) (dOut : DesignOutput)
    (chOut : ChallengeOutput) (m : Nat)
    (hdec : ∀ k i, ∃ out, ag.decomposition k i = .ok out ∧ out.has_non_atomic_tasks = false)
    (r iterations : Nat) (s s' : OrchSt) (res : Except String Unit)
    (heq : decompositionLoop ag dOut chOut m r iterations s = (s', res)) :
    res = .ok () ∧
    s'.state.phases.validation = s.state.phases.validation ∧
    s'.state.status = s.state.status ∧
    s'.cancelled = s.cancelled := by
  cases r with
  | zero =>
      have hthis : decompositionLoop ag dOut chOut m 0 iterations s = (s', res) := heq
      simp [decompositionLoop, setDecompositionStatus, updDecomposition] at hthis
      obtain ⟨h1, h2⟩ := hthis
      subst h1 h2
      simp [setDecompositionStatus, updDecomposition]
  | succ r =>
      obtain ⟨out, hout, hflag⟩ := hdec s.calls.decomposition
        { design := dOut, requirements := chOut.requirements_challenged }
      have hthis : decompositionLoop ag dOut chOut m (r + 1) iterations s = (s', res) := heq
      simp [decompositionLoop, setDecompositionStatus, updDecomposition, bumpTotal, recordOk,
        hout, hflag] at hthis
      obtain ⟨h1, h2⟩ := hthis
      subst h1 h2
      simp

/-- `runDecompositionPhase` under the same hypotheses. -/
theorem runDecompositionPhase_ok (ag : PipelineAgents) (config : IterationConfig)
    (hdec : ∀ k i, ∃ out, ag.decomposition k i = .ok out ∧ out.has_non_atomic_tasks = false)
    (s s' : OrchSt) (res : Except String Unit)
    (heq : runDecompositionPhase ag config s = (s', res)) :
    res = .ok () ∧
    s'.state.phases.validation = s.state.phases.validation ∧
    s'.state.status = s.state.status ∧
    s'.cancelled = s.cancelled :=
  decompositionLoop_no_non_atomic ag _ _ _ hdec _ _ _ _ _ heq

end Orch
end Specky
namespace Specky
namespace Orch

/-- With a finite validation budget `n` and a validation collaborator that
never passes (while design/decomposition collaborators keep succeeding),
the validation loop throws the budget-exceeded error after exactly the
remaining `r` validation attempts; the phase ends failed and the
pipeline-level status is untouched (the loop rethrows). -/
theorem validationLoop_never_passes (ag : PipelineAgents) (config : IterationConfig)
    (dOut : DecompositionOutput) (desOut : DesignOutput) (n : Nat)
    (hn : config.decomposition_validation_max = .finite n)
    (hval : ∀ k i, ∃ out, ag.validation k i = .ok out ∧ out.passes = false)
    (hdes : ∀ k i, ∃ out, ag.design k i = .ok out)
    (hdec : ∀ k i, ∃ out, ag.decomposition k i = .ok out ∧ out.has_non_atomic_tasks = false) :
    ∀ (r iterations fuel : Nat) (s : OrchSt), iterations + r = n → 1 ≤ r → r ≤ fuel →
      ∃ s', validationLoop ag config dOut desOut fuel iterations s =
          some (s',
            .error ("Failed to reach 100% confidence after " ++ toString n ++ " iterations")) ∧
        s'.state.phases.validation.iterations = s.state.phases.validation.iterations + r ∧
        s'.state.phases.validation.status = .failed ∧
        s'.state.status = s.state.status ∧
        s'.cancelled = s.cancelled := by
  intro r
  induction r with
  | zero => intro iterations fuel s _ h1; omega
  | succ r ih =>
      intro iterations fuel s hsum _ hfuel
      cases fuel with
      | zero => omega
      | succ f =>
          obtain ⟨out, hout, hpass⟩ := hval s.calls.validation
            { stories := dOut.stories, schemas := desOut.schemas,
              decisions := desOut.decisions, dependency_dag := dOut.dependency_dag }
          simp only [validationLoop, hout, hpass]
          rw [if_neg (by simp)]
          by_cases hbase : r = 0
          · subst hbase
            have hiter : iterations + 1 = n := by omega
            rw [hn]
            rw [if_pos (by simp; omega)]
            rw [hiter]
            refine ⟨_, rfl, ?_, ?_, ?_, ?_⟩ <;>
              simp [failValidationWith, setValidationStatus, updValidation, bumpTotal, recordOk]
          · rw [hn]
            rw [if_neg (by simp; omega)]
            by_cases hdb : designBlame out = true
            · rw [if_pos hdb]
              split
              case _ s5 e heq5 =>
                have h5 := runDesignPhase_ok ag hdes _ _ _ heq5
                simp at h5
              case _ s5 a heq5 =>
                have h5 := runDesignPhase_ok ag hdes _ _ _ heq5
                split
                case _ s6 e heq6 =>
                  have h6 := runDecompositionPhase_ok ag config hdec _ _ _ heq6
                  simp at h6
                case _ s6 a2 heq6 =>
                  have h6 := runDecompositionPhase_ok ag config hdec _ _ _ heq6
                  obtain ⟨s', hloop, hit, hst, hps, hc⟩ :=
                    ih (iterations + 1) f s6 (by omega) (by omega) (by omega)
                  refine ⟨s', hloop, ?_, hst, ?_, ?_⟩
                  · rw [hit, h6.2.1, h5.2.1]
                    simp [bumpTotal, updValidation, setValidationStatus, recordOk]
                    try omega
                  · rw [hps, h6.2.2.1, h5.2.2.1]
                    simp [bumpTotal, updValidation, setValidationStatus]
                  · rw [hc, h6.2.2.2, h5.2.2.2]
            · rw [if_neg hdb]
              by_cases hcb : decompositionBlame out = true
              · rw [if_pos hcb]
                split
                case _ s5 e heq5 =>
                  have h5 := runDecompositionPhase_ok ag config hdec _ _ _ heq5
                  simp at h5
                case _ s5 a heq5 =>
                  have h5 := runDecompositionPhase_ok ag config hdec _ _ _ heq5
                  obtain ⟨s', hloop, hit, hst, hps, hc⟩ :=
                    ih (iterations + 1) f s5 (by omega) (by omega) (by omega)
                  refine ⟨s', hloop, ?_, hst, ?_, ?_⟩
                  · rw [hit, h5.2.1]
                    simp [bumpTotal, updValidation, setValidationStatus, recordOk]
                    try omega
                  · rw [hps, h5.2.2.1]
                    simp [bumpTotal, updValidation, setValidationStatus]
                  · rw [hc, h5.2.2.2]
              · rw [if_neg hcb]
                obtain ⟨s', hloop, hit, hst, hps, hc⟩ :=
                  ih (iterations + 1) f _ (by omega) (by omega) (by omega)
                refine ⟨s', hloop, ?_, hst, ?_, ?_⟩
                · rw [hit]
                  simp [bumpTotal, updValidation, setValidationStatus, recordOk]
                  try omega
                · rw [hps]
                  simp [bumpTotal, updValidation, setValidationStatus]
                · rw [hc]

end Orch
end Specky
namespace Specky
namespace Orch

/-- `runChallengePhase` under a never-looping challenge collaborator. -/
theorem runChallengePhase_ok (ag : PipelineAgents) (config : IterationConfig)
    (hch : ∀ k i, ∃ out, ag.challenge k i = .ok out ∧ out.needs_discovery_loop = false)
    (s s' : OrchSt) (res : Except String Unit)
    (heq : runChallengePhase ag config s = (s', res)) :
    res = .ok () ∧
    s'.state.phases.validation = s.state.phases.validation ∧
    s'.state.status = s.state.status ∧
    s'.cancelled = s.cancelled := by
  have h : challengeLoop ag (s.state.phases.discovery.output.getD default)
      config.discovery_challenge_max config.discovery_challenge_max 0 s = (s', res) := heq
  exact challengeLoop_no_loop ag _ _ hch _ _ _ _ _ h

/-- C5: with a finite validation budget `n` (`decomposition_validation_max
= n`, not unlimited) and a validation collaborator whose output never has
`passes = true` (all other collaborators well-behaved), `start` ends with
a thrown budget error and pipeline status `failed` after exactly `n`
validation attempts — no soft-cap escape. -/
theorem pipeline_validation_hard_cap (ag : PipelineAgents) (config : IterationConfig) (fuel : Nat)
    (input : DiscoveryInput) (n : Nat)
    (hn : config.decomposition_validation_max = .finite n) (hn1 : 1 ≤ n) (hfuel : n ≤ fuel)
    (hdisc : ∀ k i, ∃ out, ag.discovery k i = .ok out)
    (hch : ∀ k i, ∃ out, ag.challenge k i = .ok out ∧ out.needs_discovery_loop = false)
    (hdes : ∀ k i, ∃ out, ag.design k i = .ok out)
    (hdec : ∀ k i, ∃ out, ag.decomposition k i = .ok out ∧ out.has_non_atomic_tasks = false)
    (hval : ∀ k i, ∃ out, ag.validation k i = .ok out ∧ out.passes = false) :
    ∃ sf, start ag config fuel input =
        some (sf,
          .error ("Failed to reach 100% confidence after " ++ toString n ++ " iterations")) ∧
      sf.state.status = .failed ∧
      sf.state.phases.validation.iterations = n ∧
      sf.state.phases.validation.status = .failed := by
  have hcanc0 : (startState config input).cancelled = false := by simp [startState]
  have hvit0 : (startState config input).state.phases.validation.iterations = 0 := by
    simp [startState, updDiscovery, createInitialState, createPhaseState]
  simp only [start]
  rcases heq1 : runDiscoveryPhase ag (startState config input) with ⟨s1, r1⟩
  have h1 := runDiscoveryPhase_ok ag hdisc _ _ _ heq1
  rw [h1.1]
  dsimp only
  rw [show s1.cancelled = false from h1.2.2.2.2.2.2.2.2.trans hcanc0]
  simp only [Bool.false_eq_true, if_false]
  rcases heq2 : runChallengePhase ag config s1 with ⟨s2, r2⟩
  have h2 := runChallengePhase_ok ag config hch _ _ _ heq2
  rw [h2.1]
  dsimp only
  rw [show s2.cancelled = false from h2.2.2.2.trans (h1.2.2.2.2.2.2.2.2.trans hcanc0)]
  simp only [Bool.false_eq_true, if_false]
  rcases heq3 : runDesignPhase ag s2 with ⟨s3, r3⟩
  have h3 := runDesignPhase_ok ag hdes _ _ _ heq3
  rw [h3.1]
  dsimp only
  have hc3 : s3.cancelled = false :=
    h3.2.2.2.trans (h2.2.2.2.trans (h1.2.2.2.2.2.2.2.2.trans hcanc0))
  rw [hc3]
  simp only [Bool.false_eq_true, if_false]
  rcases heq4 : runDecompositionPhase ag config s3 with ⟨s4, r4⟩
  have h4 := runDecompositionPhase_ok ag config hdec _ _ _ heq4
  rw [h4.1]
  dsimp only
  have hc4 : s4.cancelled = false := h4.2.2.2.trans hc3
  rw [hc4]
  simp only [Bool.false_eq_true, if_false]
  have hvit4 : s4.state.phases.validation.iterations = 0 := by
    rw [show s4.state.phases.validation = s3.state.phases.validation from h4.2.1,
      show s3.state.phases.validation = s2.state.phases.validation from h3.2.1,
      show s2.state.phases.validation = s1.state.phases.validation from h2.2.1,
      show s1.state.phases.validation = (startState config input).state.phases.validation
        from h1.2.2.2.2.2.1]
    exact hvit0
  obtain ⟨s5, hloop, hit, hvst, hps, hc⟩ := validationLoop_never_passes ag config
    (s4.state.phases.decomposition.output.getD default)
    (s4.state.phases.design.output.getD default) n hn hval hdes hdec n 0 fuel s4
    (by omega) hn1 hfuel
  have hv : runValidationPhase ag config fuel s4 =
      some (s5, .error ("Failed to reach 100% confidence after " ++ toString n ++ " iterations")) :=
    hloop
  rw [hv]
  refine ⟨failPipeline s5, rfl, by simp [failPipeline], ?_, ?_⟩
  · simp only [failPipeline]
    rw [hit, hvit4]
    omega
  · simp only [failPipeline]
    exact hvst

end Orch
end Specky
namespace Specky
namespace Orch

def chOutBenign : ChallengeOutput :=
  { challenges := [], requirements_challenged := default, needs_discovery_loop := false }

def desOutBenign : DesignOutput :=
  { architecture := "a", tech_stack := default, file_structure := "f", decisions := [],
    schemas := [], needs_refinement := false }

def decOutBenign : DecompositionOutput :=
  { sprints := [], stories := [], dependency_dag := [], has_non_atomic_tasks := false }

/-- A validation collaborator that never passes (and names no loop target,
so the loop simply re-validates). -/
def valOutNeverPasses : ValidationOutput :=
  { quality_report := default, passes := false }

def agentsNeverPass : PipelineAgents :=
  { discovery := fun _ _ => .ok default
    challenge := fun _ _ => .ok chOutBenign
    design := fun _ _ => .ok desOutBenign
    decomposition := fun _ _ => .ok decOutBenign
    validation := fun _ _ => .ok valOutNeverPasses
    synthesis := fun _ _ => .error "unreached" }

def configHardCap : IterationConfig :=
  { discovery_challenge_max := 3, design_decomposition_max := 3,
    decomposition_validation_max := .finite 2, min_confidence_score := 100 }

/-- Witness for C5 with a budget of 2: the run fails with the budget error
after exactly 2 validation attempts. -/
theorem pipeline_validation_hard_cap_witness :
    ∃ sf, start agentsNeverPass configHardCap 2 { user_prompt := "p" } =
        some (sf,
          .error ("Failed to reach 100% confidence after " ++ toString 2 ++ " iterations")) ∧
      sf.state.status = .failed ∧
      sf.state.phases.validation.iterations = 2 := by
  obtain ⟨sf, h1, h2, h3, _⟩ := pipeline_validation_hard_cap agentsNeverPass configHardCap 2
    { user_prompt := "p" } 2 rfl (by decide) (by decide)
    (fun _ _ => ⟨default, rfl⟩) (fun _ _ => ⟨chOutBenign, rfl, rfl⟩)
    (fun _ _ => ⟨desOutBenign, rfl⟩) (fun _ _ => ⟨decOutBenign, rfl, rfl⟩)
    (fun _ _ => ⟨valOutNeverPasses, rfl, rfl⟩)
  exact ⟨sf, h1, h2, h3⟩

end Orch
end Specky
namespace Specky

/-- The empty string matches none of the date shapes, for any host
environment. -/
theorem isValidDate_empty (env : JsEnv) : isValidDate env "" = false := by
  have h1 : fullMatch isoPatternRE "".data = false := by decide
  have h2 : commonPatternREs.any (fun re => fullMatch re "".data) = false := by decide
  simp [isValidDate, h1, h2]

/-- A decision with a valid but stale verification date gets the staleness
warning. -/
theorem validateDecision_stale_warning (env : JsEnv) (d : DesignDecision)
    (hdate : isValidDate env d.verified_at = true)
    (hrec : isRecentDate env d.verified_at = false) :
    ∃ i ∈ validateDecision env d, i.severity = .warning ∧
      i.message = "Decision \"" ++ d.topic ++ "\" verification is over 90 days old" := by
  have hne : (d.verified_at == "") = false := by
    rcases h : d.verified_at == "" with - | -
    · rfl
    · exfalso
      have : d.verified_at = "" := by simpa using h
      rw [this] at hdate
      rw [isValidDate_empty env] at hdate
      exact Bool.false_ne_true hdate
  refine ⟨{ severity := .warning, category := .citation, message := "Decision \"" ++ d.topic ++ "\" verification is over 90 days old", location := "decision/" ++ d.id, suggestion := some "Re-verify this decision with current sources" }, ?_, rfl, rfl⟩
  simp only [validateDecision, hne, hdate, hrec]
  simp

/-- The per-decision foldl of `validateCitations`, first component in
closed form. -/
theorem validateCitations_foldl_fst (env : JsEnv) (decisions : List DesignDecision)
    (init : List ValidationIssue × List String) :
    (decisions.foldl
      (fun acc decision =>
        let issues := validateDecision env decision
        (acc.1 ++ issues,
          if issues.any (fun i => decide (i.severity = Severity.error)) then
            acc.2 ++ [decision.id]
          else acc.2))
      init).1 =
    init.1 ++ decisions.flatMap (validateDecision env) := by
  induction decisions generalizing init with
  | nil => simp
  | cons d rest ih =>
      simp only [List.foldl_cons, List.flatMap_cons]
      by_cases h : (validateDecision env d).any (fun i => decide (i.severity = Severity.error))
      · rw [ih]
        simp [h, List.append_assoc]
      · rw [ih]
        simp [h, List.append_assoc]

/-- C10: if every decision carries a valid http(s) URL and a valid
verification date, no category reports an error-level issue, but some
decision's verification date is older than 90 days, then the citation
score is at most 90, so the aggregated confidence is below 100 and the
artifact does not pass. -/
theorem stale_citation_blocks_pass (env : JsEnv) (input : ValidationInput) (st : RegexSt)
    (hvalid : ∀ d ∈ input.decisions,
      isValidUrl env d.verification_source = true ∧ isValidDate env d.verified_at = true)
    (hnoerr : ∀ i ∈ (validateAll env input st).1.breakdown.completeness.issues ++
        (validateAll env input st).1.breakdown.citations.issues ++
        (validateAll env input st).1.breakdown.atomic.issues ++
        (validateAll env input st).1.breakdown.schemas.issues ++
        (validateAll env input st).1.breakdown.dag.issues,
      i.severity ≠ .error)
    (hstale : ∃ d ∈ input.decisions, isRecentDate env d.verified_at = false) :
    (validateAll env input st).1.breakdown.citations.score ≤ 90 ∧
    (validateAll env input st).1.confidence_score < 100 ∧
    (validateAll env input st).1.passes = false := by
  obtain ⟨d, hd, hrec⟩ := hstale
  obtain ⟨i, hi, hiwarn, _⟩ := validateDecision_stale_warning env d (hvalid d hd).2 hrec
  have hciss : (validateAll env input st).1.breakdown.citations.issues =
      (validateCitations env input.decisions input.techStack).issues := by
    simp [validateAll]
  have hmem : i ∈ (validateCitations env input.decisions input.techStack).issues := by
    simp only [validateCitations, validateCitations_foldl_fst]
    simp only [List.nil_append, List.mem_append, List.mem_flatMap]
    exact Or.inl ⟨d, hd, hi⟩
  have herr0 : errorCount (validateCitations env input.decisions input.techStack).issues = 0 := by
    simp only [errorCount, List.length_eq_zero, List.filter_eq_nil_iff]
    intro a ha
    have := hnoerr a (by rw [← hciss] at ha; simp [ha])
    simpa using this
  have hwc : 1 ≤ warningCount (validateCitations env input.decisions input.techStack).issues := by
    have : i ∈ (validateCitations env input.decisions input.techStack).issues.filter
        (fun j => decide (j.severity = Severity.warning)) := by
      simp [List.mem_filter, hmem, hiwarn]
    have hlen := List.length_pos.mpr (List.ne_nil_of_mem this)
    simpa [warningCount] using hlen
  have hscore : (validateCitations env input.decisions input.techStack).score ≤ 90 := by
    have hform : (validateCitations env input.decisions input.techStack).score =
        if 0 < errorCount (validateCitations env input.decisions input.techStack).issues
        then 0
        else max 0 (100 -
          (warningCount (validateCitations env input.decisions input.techStack).issues : Int) * 10) := by
      simp only [validateCitations]
    rw [hform, herr0]
    simp only [Nat.lt_irrefl, if_false]
    omega
  have hcsc : (validateAll env input st).1.breakdown.citations.score =
      (validateCitations env input.decisions input.techStack).score := by
    simp [validateAll]
  have hconf : (validateAll env input st).1.confidence_score ≤
      (validateAll env input st).1.breakdown.citations.score := by
    simp only [validateAll, jsMinList, List.foldl]
    omega
  refine ⟨by rw [hcsc]; exact hscore, by omega, ?_⟩
  have hlt : (validateAll env input st).1.confidence_score < 100 := by omega
  have hpass := (validateAll_confidence_is_min_and_passes_iff_100 env input st).2
  rcases h : (validateAll env input st).1.passes with - | -
  · rfl
  · exfalso
    have := hpass.mp h
    omega

end Specky
namespace Specky

/-- Host environment for the C10 witness: the URL parses as https and the
date parses to a time more than 90 days before "now". -/
def envStale : JsEnv :=
  { urlProtocol := fun u => if u = "https://react.dev" then some "https:" else none,
    dateParse := fun d => if d = "2020-01-01" then some 1577836800000 else none,
    nowMs := 1768608000000,
    isoNow := "2026-01-17T00:00:00.000Z" }

/-- A decision with a valid URL and a valid but stale verification date. -/
def decisionStale : DesignDecision :=
  { id := "D1", topic := "Framework", decision := "React",
    alternatives_considered :=
      [ { option := "Vue", rejected_because := "smaller ecosystem" },
        { option := "Svelte", rejected_because := "team familiarity" } ],
    challenger_objection := "", response := "",
    verified_at := "2020-01-01", verification_source := "https://react.dev" }

def inputStale : ValidationInput :=
  { stories := [], decisions := [decisionStale], schemas := [] }

/-- Witness for C10: with the stale-but-valid decision, the hypotheses
hold concretely and the report does not pass. -/
theorem stale_citation_blocks_pass_witness :
    (validateAll envStale inputStale regexInit).1.breakdown.citations.score ≤ 90 ∧
    (validateAll envStale inputStale regexInit).1.confidence_score < 100 ∧
    (validateAll envStale inputStale regexInit).1.passes = false :=
  stale_citation_blocks_pass envStale inputStale regexInit
    (by decide) (by decide) (by decide)

end Specky
namespace Specky

/-! ## Specification-level graph notions for `validateDag` -/

/-- `u → v` is a dependency edge of the record. -/
def dagEdge (dag : List (String × List String)) (u v : String) : Prop :=
  v ∈ dagDeps dag u

instance (dag : List (String × List String)) (u v : String) :
    Decidable (dagEdge dag u v) := by
  unfold dagEdge; infer_instance

/-- Reachability along at least one dependency edge. -/
inductive DagWalk (dag : List (String × List String)) : String → String → Prop where
  | single {u v : String} : dagEdge dag u v → DagWalk dag u v
  | cons {u w v : String} : dagEdge dag u w → DagWalk dag w v → DagWalk dag u v

/-- The record contains a (directed) cycle. -/
def HasCycle (dag : List (String × List String)) : Prop := ∃ v, DagWalk dag v v

/-- Every dependency edge points at a key of the record. -/
def Resolvable (dag : List (String × List String)) : Prop :=
  ∀ p ∈ dag, ∀ d ∈ p.2, (dag.lookup d).isSome

/-- Consecutive elements are edges. -/
def chainEdges (dag : List (String × List String)) : List String → Prop
  | [] => True
  | [_] => True
  | a :: b :: rest => dagEdge dag a b ∧ chainEdges dag (b :: rest)

/-- A nonempty closed walk written as a vertex list (first = last), the
shape of the path reported by `hasCycle`. -/
def isCyclePath (dag : List (String × List String)) (p : List String) : Prop :=
  2 ≤ p.length ∧ chainEdges dag p ∧ p.head? = p.getLast?

theorem dagWalk_trans {dag : List (String × List String)} {a b c : String}
    (h1 : DagWalk dag a b) (h2 : DagWalk dag b c) : DagWalk dag a c := by
  induction h1 with
  | single h => exact .cons h h2
  | cons h _ ih => exact .cons h (ih h2)

theorem chainEdges_tail {dag : List (String × List String)} {a : String} {l : List String}
    (h : chainEdges dag (a :: l)) : chainEdges dag l := by
  cases l with
  | nil => trivial
  | cons b rest => exact h.2

theorem chainEdges_drop {dag : List (String × List String)} (k : Nat) :
    ∀ {l : List String}, chainEdges dag l → chainEdges dag (l.drop k) := by
  induction k with
  | zero => intro l h; simpa using h
  | succ k ih =>
      intro l h
      cases l with
      | nil => trivial
      | cons a rest => exact ih (chainEdges_tail h)

theorem chainEdges_snoc {dag : List (String × List String)} {l : List String} {a b : String}
    (h : chainEdges dag (l ++ [a])) (hab : dagEdge dag a b) :
    chainEdges dag ((l ++ [a]) ++ [b]) := by
  induction l with
  | nil => exact ⟨hab, trivial⟩
  | cons x rest ih =>
      cases rest with
      | nil => exact ⟨h.1, hab, trivial⟩
      | cons y rest2 => exact ⟨h.1, ih h.2⟩

/-- From a closed chain, a real walk. -/
theorem dagWalk_of_chain {dag : List (String × List String)} {a b : String} :
    ∀ {l : List String}, l ≠ [] → chainEdges dag (a :: l) → l.getLast? = some b →
      DagWalk dag a b := by
  intro l
  induction l generalizing a with
  | nil => intro h; exact absurd rfl h
  | cons x rest ih =>
      intro _ hch hlast
      cases rest with
      | nil =>
          simp at hlast
          exact hlast ▸ .single hch.1
      | cons y rest2 =>
          have : (y :: rest2).getLast? = some b := by
            simpa [List.getLast?_cons_cons] using hlast
          exact .cons hch.1 (ih (by simp) hch.2 (by simpa [List.getLast?_cons_cons] using this))

theorem hasCycle_of_cyclePath {dag : List (String × List String)} {p : List String}
    (h : isCyclePath dag p) : HasCycle dag := by
  obtain ⟨hlen, hch, hhl⟩ := h
  cases p with
  | nil => simp at hlen
  | cons a l =>
      cases l with
      | nil => simp at hlen
      | cons x rest =>
          refine ⟨a, dagWalk_of_chain (by simp) hch ?_⟩
          have : (a :: x :: rest).getLast? = some a := by
            simp only [List.head?_cons] at hhl
            exact hhl.symm
          simpa [List.getLast?_cons_cons] using this

/-- A node with an outgoing edge is a key of the record. -/
theorem mem_keys_of_edge {dag : List (String × List String)} {u v : String}
    (h : dagEdge dag u v) : u ∈ dagKeys dag := by
  unfold dagEdge dagDeps at h
  rcases hlk : dag.lookup u with - | ds
  · rw [hlk] at h; simp at h
  · clear h
    induction dag with
    | nil => simp at hlk
    | cons p rest ih =>
        rw [List.lookup_cons] at hlk
        by_cases he : u = p.1
        · simp [dagKeys, he]
        · have : (u == p.1) = false := by simpa using he
          rw [this] at hlk
          simp only [dagKeys, List.map_cons, List.mem_cons]
          exact Or.inr (ih hlk)

end Specky
namespace Specky

/-- A finite universe of node names covering the record (used only to
bound the DFS fuel). -/
def univOk (dag : List (String × List String)) (univ : List String) : Prop :=
  ∀ p ∈ dag, p.1 ∈ univ ∧ ∀ y ∈ p.2, y ∈ univ

theorem dagDeps_subset_univ {dag : List (String × List String)} {univ : List String}
    (hu : univOk dag univ) (x : String) : ∀ y ∈ dagDeps dag x, y ∈ univ := by
  intro y hy
  unfold dagDeps at hy
  rcases hlk : dag.lookup x with - | ds
  · rw [hlk] at hy; simp at hy
  · rw [hlk] at hy
    induction dag with
    | nil => simp at hlk
    | cons p rest ih =>
        rw [List.lookup_cons] at hlk
        by_cases he : x = p.1
        · have : (x == p.1) = true := by simpa using he
          rw [this] at hlk
          simp only [if_true] at hlk
          cases hlk
          exact (hu p (by simp)).2 y hy
        · have : (x == p.1) = false := by simpa using he
          rw [this] at hlk
          simp only [if_false] at hlk
          exact ih (fun q hq => hu q (by simp [hq])) hlk

theorem foldl_setAdd_mem :
    ∀ (xs acc : List String) (z : String), z ∈ acc ∨ z ∈ xs → z ∈ xs.foldl setAdd acc := by
  intro xs
  induction xs with
  | nil => intro acc z h; simpa using h.resolve_right (by simp)
  | cons y rest ih =>
      intro acc z h
      simp only [List.foldl_cons]
      apply ih
      rcases h with h | h
      · left
        unfold setAdd
        by_cases hy : y ∈ acc
        · simpa [hy] using h
        · simp [hy, h]
      · rcases List.mem_cons.mp h with h | h
        · left
          unfold setAdd
          by_cases hy : y ∈ acc
          · simp [hy, h]
          · simp [hy, h]
        · right; exact h

theorem mem_setOfList {xs : List String} {x : String} (hx : x ∈ xs) : x ∈ setOfList xs :=
  foldl_setAdd_mem xs [] x (Or.inr hx)

theorem dagUniverse_univOk (dag : List (String × List String)) :
    univOk dag (dagUniverse dag) := by
  intro p hp
  constructor
  · exact mem_setOfList (List.mem_append.mpr (Or.inl (List.mem_map.mpr ⟨p, hp, rfl⟩)))
  · intro y hy
    exact mem_setOfList (List.mem_append.mpr (Or.inr (List.mem_flatMap.mpr ⟨p, hp, hy⟩)))

theorem foldl_setAdd_nodup :
    ∀ (xs acc : List String), acc.Nodup → (xs.foldl setAdd acc).Nodup := by
  intro xs
  induction xs with
  | nil => intro acc h; simpa using h
  | cons y rest ih =>
      intro acc h
      simp only [List.foldl_cons]
      apply ih
      unfold setAdd
      by_cases hy : y ∈ acc
      · simpa [hy] using h
      · simp only [hy, if_false]
        exact List.nodup_append.mpr ⟨h, by simp, by simp [hy, List.disjoint_left]⟩

theorem setOfList_nodup (xs : List String) : (setOfList xs).Nodup :=
  foldl_setAdd_nodup xs [] (by simp)

end Specky
namespace Specky

/-- A node that is visited but no longer on the recursion stack. -/
def blackNode (st : DfsSt) (u : String) : Prop :=
  u ∈ st.visited ∧ u ∉ st.stack

/-- The DFS invariant: finished (black) nodes lie on no cycle. -/
def InvB (dag : List (String × List String)) (st : DfsSt) : Prop :=
  ∀ u, blackNode st u → ¬ DagWalk dag u u

/-- Marking a fresh universe node visited shrinks the unvisited count by
exactly one. -/
theorem filter_unvisited_insert {univ vis : List String} {node : String}
    (hnd : univ.Nodup) (hmem : node ∈ univ) (hnv : node ∉ vis) :
    (univ.filter (fun x => decide (x ∉ vis ++ [node]))).length + 1 =
    (univ.filter (fun x => decide (x ∉ vis))).length := by
  induction univ with
  | nil => simp at hmem
  | cons u rest ih =>
      have hnd2 := List.nodup_cons.mp hnd
      by_cases he : u = node
      · subst he
        have hnr : u ∉ rest := hnd2.1
        simp only [List.filter_cons]
        have h1 : (decide (u ∉ vis ++ [u])) = false := by simp
        have h2 : (decide (u ∉ vis)) = true := by simpa using hnv
        rw [h1, h2]
        simp only [if_false, if_true, List.length_cons]
        have heq : rest.filter (fun x => decide (x ∉ vis ++ [u])) =
            rest.filter (fun x => decide (x ∉ vis)) := by
          apply List.filter_congr
          intro x hx
          have hxu : x ≠ u := fun h => hnr (h ▸ hx)
          simp [hxu]
        rw [heq]
        simp
      · have hmr : node ∈ rest := by
          rcases List.mem_cons.mp hmem with h | h
          · exact absurd h.symm he
          · exact h
        simp only [List.filter_cons]
        by_cases hu : u ∈ vis
        · have h1 : (decide (u ∉ vis ++ [node])) = false := by simp [hu]
          have h2 : (decide (u ∉ vis)) = false := by simpa using hu
          rw [h1, h2]
          simpa using ih hnd2.2 hmr
        · have h1 : (decide (u ∉ vis ++ [node])) = true := by simp [hu, he]
          have h2 : (decide (u ∉ vis)) = true := by simpa using hu
          rw [h1, h2]
          simp only [if_true, List.length_cons]
          have := ih hnd2.2 hmr
          omega

end Specky
namespace Specky

theorem chainEdges_snoc2 {dag : List (String × List String)} :
    ∀ {p : List String} {a b : String}, chainEdges dag p → p.getLast? = some a →
      dagEdge dag a b → chainEdges dag (p ++ [b]) := by
  intro p
  induction p with
  | nil => intro a b _ hl; simp at hl
  | cons x rest ih =>
      intro a b hch hl hab
      cases rest with
      | nil =>
          simp at hl
          subst hl
          exact ⟨hab, trivial⟩
      | cons y rest2 =>
          refine ⟨hch.1, ?_⟩
          exact ih hch.2 (by simpa [List.getLast?_cons_cons] using hl) hab

theorem filter_unvisited_mono {univ vis vis' : List String}
    (h : ∀ x ∈ vis, x ∈ vis') :
    (univ.filter (fun x => decide (x ∉ vis'))).length ≤
    (univ.filter (fun x => decide (x ∉ vis))).length := by
  rw [← List.countP_eq_length_filter, ← List.countP_eq_length_filter]
  apply List.countP_mono_left
  intro x _ hx
  simp only [decide_eq_true_eq] at hx ⊢
  exact fun hxv => hx (h x hxv)

/-- Everything the DFS guarantees, at a given fuel, about a single
`hasCycle(node, path)` call: a returned path is a genuine cycle, and a
`null` return leaves the stack as found, grows `visited`, blackens the
node, keeps black nodes black and preserves the no-black-cycle invariant. -/
def DfsFSpec (dag : List (String × List String)) (univ : List String) (fuel : Nat) : Prop :=
  ∀ (node : String) (path : List String) (st : DfsSt),
    univOk dag univ → univ.Nodup → node ∈ univ →
    (univ.filter (fun x => decide (x ∉ st.visited))).length < fuel →
    st.stack = path →
    chainEdges dag (path ++ [node]) →
    (∀ x ∈ st.stack, x ∈ st.visited) →
    InvB dag st →
    (∀ p st2, hasCycleF dag fuel node path st = (some p, st2) → isCyclePath dag p) ∧
    (∀ st2, hasCycleF dag fuel node path st = (none, st2) →
      st2.stack = st.stack ∧
      (∀ x ∈ st.visited, x ∈ st2.visited) ∧
      blackNode st2 node ∧
      (∀ x, blackNode st x → blackNode st2 x) ∧
      InvB dag st2)

/-- The corresponding guarantees for the dependency loop. -/
def DfsDepsSpec (dag : List (String × List String)) (univ : List String) (fuel : Nat) : Prop :=
  ∀ (node : String) (ds path : List String) (st : DfsSt),
    univOk dag univ → univ.Nodup →
    (∀ d ∈ ds, dagEdge dag node d) →
    (∀ d ∈ ds, d ∈ univ) →
    (univ.filter (fun x => decide (x ∉ st.visited))).length < fuel →
    st.stack = path →
    chainEdges dag path →
    path.getLast? = some node →
    (∀ x ∈ st.stack, x ∈ st.visited) →
    InvB dag st →
    (∀ p st2, hasCycleDeps dag fuel ds path st = (some p, st2) → isCyclePath dag p) ∧
    (∀ st2, hasCycleDeps dag fuel ds path st = (none, st2) →
      st2.stack = st.stack ∧
      (∀ x ∈ st.visited, x ∈ st2.visited) ∧
      (∀ d ∈ ds, blackNode st2 d) ∧
      (∀ x, blackNode st x → blackNode st2 x) ∧
      InvB dag st2)

theorem dfsDeps_spec (dag : List (String × List String)) (univ : List String) (fuel : Nat)
    (hF : DfsFSpec dag univ fuel) : DfsDepsSpec dag univ fuel := by
  intro node ds path
  induction ds with
  | nil =>
      intro st hu hnd hds hdsu hfuel hstk hch hlast hsub hinv
      constructor
      · intro p st2 heq
        simp [hasCycleDeps] at heq
      · intro st2 heq
        simp only [hasCycleDeps, Prod.mk.injEq] at heq
        rw [← heq.2]
        exact ⟨rfl, fun x hx => hx, by simp, fun x hx => hx, hinv⟩
  | cons d ds ih =>
      intro st hu hnd hds hdsu hfuel hstk hch hlast hsub hinv
      have hchain : chainEdges dag (path ++ [d]) :=
        chainEdges_snoc2 hch hlast (hds d (by simp))
      have hchild := hF d path st hu hnd (hdsu d (by simp)) hfuel hstk hchain hsub hinv
      rcases hc : hasCycleF dag fuel d path st with ⟨resc, stc⟩
      cases resc with
      | some c =>
          constructor
          · intro p st2 heq
            rw [hasCycleDeps, hc] at heq
            simp only [Prod.mk.injEq, Option.some.injEq] at heq
            exact heq.1 ▸ hchild.1 c stc hc
          · intro st2 heq
            rw [hasCycleDeps, hc] at heq
            simp at heq
      | none =>
          have hcf := hchild.2 stc hc
          obtain ⟨hstk2, hmono, hblkd, hblkmono, hinv2⟩ := hcf
          have hih := ih stc hu hnd (fun x hx => hds x (by simp [hx]))
            (fun x hx => hdsu x (by simp [hx]))
            (lt_of_le_of_lt (filter_unvisited_mono hmono) hfuel)
            (hstk2.trans hstk) hch hlast
            (fun x hx => hmono x (hsub x (by rw [hstk2] at hx; exact hx)))
            hinv2
          constructor
          · intro p st2 heq
            rw [hasCycleDeps, hc] at heq
            exact hih.1 p st2 heq
          · intro st2 heq
            rw [hasCycleDeps, hc] at heq
            obtain ⟨hstk3, hmono3, hblk3, hblkmono3, hinv3⟩ := hih.2 st2 heq
            refine ⟨hstk3.trans hstk2, fun x hx => hmono3 x (hmono x hx), ?_,
              fun x hx => hblkmono3 x (hblkmono x hx), hinv3⟩
            intro e he
            rcases List.mem_cons.mp he with he | he
            · subst he
              exact hblkmono3 e hblkd
            · exact hblk3 e he

end Specky
namespace Specky

theorem hasCycleDeps_eq (dag : List (String × List String)) (fuel : Nat)
    (path : List String) :
    ∀ (ds : List String) (st : DfsSt),
      hasCycleDepsF (fun d => hasCycleF dag fuel d path) ds st =
      hasCycleDeps dag fuel ds path st := by
  intro ds
  induction ds with
  | nil => intro st; rfl
  | cons d rest ih =>
      intro st
      simp only [hasCycleDepsF, hasCycleDeps]
      rcases hasCycleF dag fuel d path st with ⟨res, st2⟩
      cases res with
      | none => exact ih st2
      | some c => rfl

theorem dfsF_spec (dag : List (String × List String)) (univ : List String) :
    ∀ fuel, DfsFSpec dag univ fuel := by
  intro fuel
  induction fuel with
  | zero =>
      intro node path st _ _ _ hfuel
      omega
  | succ f ihF =>
      have hD := dfsDeps_spec dag univ f ihF
      intro node path st hu hnd hmem hfuel hstk hch hsub hinv
      subst hstk
      by_cases hins : node ∈ st.stack
      · have hFeq : hasCycleF dag (f + 1) node st.stack st =
            (some (st.stack.drop (st.stack.indexOf node) ++ [node]), st) := by
          simp [hasCycleF, hins]
        constructor
        · intro p st2 heq
          rw [hFeq] at heq
          simp only [Prod.mk.injEq, Option.some.injEq] at heq
          rw [← heq.1]
          have hidx : st.stack.indexOf node < st.stack.length :=
            List.indexOf_lt_length.mpr hins
          refine ⟨?_, ?_, ?_⟩
          · simp
            omega
          · have hdropeq : st.stack.drop (st.stack.indexOf node) ++ [node] =
                (st.stack ++ [node]).drop (st.stack.indexOf node) :=
              (List.drop_append_of_le_length (by omega)).symm
            rw [hdropeq]
            exact chainEdges_drop _ hch
          · rw [List.head?_append, List.getLast?_concat]
            have hhd : (st.stack.drop (st.stack.indexOf node)).head? = some node := by
              rw [List.head?_drop]
              have := List.indexOf_get? hins
              simpa [List.get?_eq_getElem?] using this
            rw [hhd]
            rfl
        · intro st2 heq
          rw [hFeq] at heq
          simp at heq
      · by_cases hvis : node ∈ st.visited
        · have hFeq : hasCycleF dag (f + 1) node st.stack st = (none, st) := by
            simp [hasCycleF, hins, hvis]
          constructor
          · intro p st2 heq
            rw [hFeq] at heq
            simp at heq
          · intro st2 heq
            rw [hFeq] at heq
            simp only [Prod.mk.injEq] at heq
            rw [← heq.2]
            exact ⟨rfl, fun x hx => hx, ⟨hvis, hins⟩, fun x hx => hx, hinv⟩
        · -- fresh node: push, explore dependencies, pop
          have hfuel1 : ((univ.filter
              (fun x => decide (x ∉ st.visited ++ [node]))).length) < f := by
            have := filter_unvisited_insert hnd hmem hvis
            omega
          have hsub1 : ∀ x ∈ (st.stack ++ [node]), x ∈ st.visited ++ [node] := by
            intro x hx
            rcases List.mem_append.mp hx with hx | hx
            · exact List.mem_append.mpr (Or.inl (hsub x hx))
            · exact List.mem_append.mpr (Or.inr hx)
          have hinv1 : InvB dag ⟨st.visited ++ [node], st.stack ++ [node]⟩ := by
            intro u hbu
            obtain ⟨huv, hus⟩ := hbu
            have hune : u ≠ node := by
              intro h
              exact hus (h ▸ List.mem_append.mpr (Or.inr (by simp)))
            have : blackNode st u := by
              refine ⟨?_, fun h => hus (List.mem_append.mpr (Or.inl h))⟩
              rcases List.mem_append.mp huv with h | h
              · exact h
              · simp at h
                exact absurd h hune
            exact hinv u this
          have hDs := hD node (dagDeps dag node) (st.stack ++ [node])
            ⟨st.visited ++ [node], st.stack ++ [node]⟩ hu hnd
            (fun d hd => hd) (dagDeps_subset_univ hu node) hfuel1 rfl
            hch (List.getLast?_concat _) hsub1 hinv1
          rcases hdep : hasCycleDeps dag f (dagDeps dag node) (st.stack ++ [node])
              ⟨st.visited ++ [node], st.stack ++ [node]⟩ with ⟨resD, stD⟩
          cases resD with
          | some c =>
              have hFeq : hasCycleF dag (f + 1) node st.stack st = (some c, stD) := by
                rw [hasCycleF.eq_def]
                simp only [hins, hvis, if_false]
                rw [hasCycleDeps_eq, hdep]
              constructor
              · intro p st2 heq
                rw [hFeq] at heq
                simp only [Prod.mk.injEq, Option.some.injEq] at heq
                exact heq.1 ▸ hDs.1 c stD hdep
              · intro st2 heq
                rw [hFeq] at heq
                simp at heq
          | none =>
              obtain ⟨hstkD, hmonoD, hblkD, hblkmonoD, hinvD⟩ := hDs.2 stD hdep
              have hFeq : hasCycleF dag (f + 1) node st.stack st =
                  (none, ⟨stD.visited, stD.stack.erase node⟩) := by
                rw [hasCycleF.eq_def]
                simp only [hins, hvis, if_false]
                rw [hasCycleDeps_eq, hdep]
              have herase : stD.stack.erase node = st.stack := by
                rw [hstkD, List.erase_append_right _ hins]
                simp
              constructor
              · intro p st2 heq
                rw [hFeq] at heq
                simp at heq
              · intro st2 heq
                rw [hFeq] at heq
                simp only [Prod.mk.injEq] at heq
                rw [← heq.2]
                have hvisnode : node ∈ stD.visited :=
                  hmonoD node (List.mem_append.mpr (Or.inr (by simp)))
                refine ⟨?_, ?_, ?_, ?_, ?_⟩
                · simpa using herase
                · intro x hx
                  exact hmonoD x (List.mem_append.mpr (Or.inl hx))
                · exact ⟨hvisnode, by rw [herase]; exact hins⟩
                · intro x hbx
                  obtain ⟨hxv, hxs⟩ := hbx
                  have hxne : x ≠ node := fun h => hvis (h ▸ hxv)
                  have hb1 : blackNode ⟨st.visited ++ [node], st.stack ++ [node]⟩ x := by
                    refine ⟨List.mem_append.mpr (Or.inl hxv), ?_⟩
                    intro h
                    rcases List.mem_append.mp h with h | h
                    · exact hxs h
                    · simp at h; exact hxne h
                  have hb2 := hblkmonoD x hb1
                  exact ⟨hb2.1, by rw [herase]; exact fun h => hb2.2 (by rw [hstkD]; exact List.mem_append.mpr (Or.inl h))⟩
                · -- the new black set is the old one plus `node`
                  intro u hbu
                  obtain ⟨huv, hus⟩ := hbu
                  simp only at huv hus
                  rw [herase] at hus
                  by_cases hune : u = node
                  · subst hune
                    intro hw
                    cases hw with
                    | single h =>
                        have hbn := hblkD u h
                        exact hbn.2 (by rw [hstkD]; exact List.mem_append.mpr (Or.inr (by simp)))
                    | cons h hw2 =>
                        rename_i w
                        have hbw := hblkD w h
                        have : DagWalk dag w w := dagWalk_trans hw2 (.single h)
                        exact hinvD w hbw this
                  · have : blackNode stD u := by
                      refine ⟨huv, ?_⟩
                      rw [hstkD]
                      intro h
                      rcases List.mem_append.mp h with h | h
                      · exact hus h
                      · simp at h; exact hune h
                    exact hinvD u this

end Specky
namespace Specky

/-- Guarantees of the `Object.keys` scan loop: a returned path is a genuine
cycle, and a `null` result certifies that no scanned key lies on a cycle. -/
theorem dagCycleScan_spec (dag : List (String × List String)) (univ : List String)
    (fuel : Nat) (hu : univOk dag univ) (hnd : univ.Nodup) (hfuel : univ.length < fuel) :
    ∀ (ks : List String) (st : DfsSt), (∀ k ∈ ks, k ∈ univ) → st.stack = [] → InvB dag st →
      (∀ c, dagCycleScan dag fuel ks st = some c → isCyclePath dag c) ∧
      (dagCycleScan dag fuel ks st = none → ∀ k ∈ ks, ¬ DagWalk dag k k) := by
  intro ks
  induction ks with
  | nil =>
      intro st hks hstk hinv
      constructor
      · intro c hc; simp [dagCycleScan] at hc
      · intro _ k hk; simp at hk
  | cons k rest ih =>
      intro st hks hstk hinv
      by_cases hv : k ∈ st.visited
      · have hscan : dagCycleScan dag fuel (k :: rest) st = dagCycleScan dag fuel rest st := by
          simp [dagCycleScan, hv]
        have hrec := ih st (fun x hx => hks x (by simp [hx])) hstk hinv
        constructor
        · intro c hc
          rw [hscan] at hc
          exact hrec.1 c hc
        · intro hc x hx
          rw [hscan] at hc
          rcases List.mem_cons.mp hx with he | hx2
          · subst he
            exact hinv x ⟨hv, by rw [hstk]; simp⟩
          · exact hrec.2 hc x hx2
      · have hkuniv : k ∈ univ := hks k (by simp)
        have hfb : (univ.filter (fun x => decide (x ∉ st.visited))).length < fuel :=
          lt_of_le_of_lt (List.length_filter_le _ _) hfuel
        have hF := dfsF_spec dag univ fuel k [] st hu hnd hkuniv hfb hstk
          (by exact trivial) (by rw [hstk]; simp) hinv
        rcases hcall : hasCycleF dag fuel k [] st with ⟨res, st2⟩
        cases res with
        | some c0 =>
            have hscan : dagCycleScan dag fuel (k :: rest) st = some c0 := by
              simp only [dagCycleScan]
              rw [if_neg hv, hcall]
            constructor
            · intro c hc
              rw [hscan] at hc
              cases hc
              exact hF.1 c0 st2 hcall
            · intro hc
              rw [hscan] at hc
              simp at hc
        | none =>
            obtain ⟨hstk2, hmono, hblk, hblkmono, hinv2⟩ := hF.2 st2 hcall
            have hscan : dagCycleScan dag fuel (k :: rest) st =
                dagCycleScan dag fuel rest st2 := by
              simp only [dagCycleScan]
              rw [if_neg hv, hcall]
            have hrec := ih st2 (fun x hx => hks x (by simp [hx])) (hstk2.trans hstk) hinv2
            constructor
            · intro c hc
              rw [hscan] at hc
              exact hrec.1 c hc
            · intro hc x hx
              rw [hscan] at hc
              rcases List.mem_cons.mp hx with he | hx2
              · subst he
                exact hinv2 x hblk
              · exact hrec.2 hc x hx2

theorem lookup_mem : ∀ {dag : List (String × List String)} {u : String} {ds : List String},
    dag.lookup u = some ds → (u, ds) ∈ dag := by
  intro dag
  induction dag with
  | nil => intro u ds h; simp at h
  | cons p rest ih =>
      intro u ds h
      rw [List.lookup_cons] at h
      by_cases he : u = p.1
      · have hb : (u == p.1) = true := by simpa using he
        rw [hb] at h
        simp only [if_true, Option.some.injEq] at h
        subst h
        subst he
        simp
      · have hb : (u == p.1) = false := by simpa using he
        rw [hb] at h
        simp only [if_false] at h
        exact List.mem_cons.mpr (Or.inr (ih h))

theorem edge_rank {dag : List (String × List String)} (rank : String → Nat)
    (h : ∀ p ∈ dag, ∀ d ∈ p.2, rank d < rank p.1) {u v : String}
    (he : dagEdge dag u v) : rank v < rank u := by
  unfold dagEdge dagDeps at he
  rcases hlk : dag.lookup u with - | ds
  · rw [hlk] at he; simp at he
  · rw [hlk] at he
    exact h (u, ds) (lookup_mem hlk) v he

/-- A strictly decreasing rank along every edge rules out cycles. -/
theorem rank_no_cycle {dag : List (String × List String)} (rank : String → Nat)
    (h : ∀ p ∈ dag, ∀ d ∈ p.2, rank d < rank p.1) : ¬ HasCycle dag := by
  rintro ⟨v, hw⟩
  have hlt : ∀ {a b : String}, DagWalk dag a b → rank b < rank a := by
    intro a b hab
    induction hab with
    | single he => exact edge_rank rank h he
    | cons he _ ih => exact lt_trans ih (edge_rank rank h he)
  exact absurd (hlt hw) (lt_irrefl _)

theorem dagWalk_head_key {dag : List (String × List String)} {v w : String}
    (hw : DagWalk dag v w) : v ∈ dagKeys dag := by
  cases hw with
  | single h => exact mem_keys_of_edge h
  | cons h _ => exact mem_keys_of_edge h

theorem missingDepIssues_loc (dag : List (String × List String)) :
    ∀ i ∈ missingDepIssues dag, i.location ≠ "dependency_dag" := by
  intro i hi
  unfold missingDepIssues at hi
  rw [List.mem_flatMap] at hi
  obtain ⟨p, hp, hip⟩ := hi
  rw [List.mem_filterMap] at hip
  obtain ⟨dep, hdep, hfi⟩ := hip
  by_cases hlk : (dag.lookup dep).isSome
  · rw [if_pos hlk] at hfi
    simp at hfi
  · rw [if_neg hlk] at hfi
    simp only [Option.some.injEq] at hfi
    intro hcontra
    rw [← hfi] at hcontra
    have hlen : ("dependency_dag/" ++ p.1).length = ("dependency_dag" : String).length :=
      congrArg String.length hcontra
    rw [String.length_append] at hlen
    have h15 : ("dependency_dag/" : String).length = 15 := rfl
    have h14 : ("dependency_dag" : String).length = 14 := rfl
    omega

theorem missingDepIssues_resolvable (dag : List (String × List String))
    (hresolv : Resolvable dag) : missingDepIssues dag = [] := by
  unfold missingDepIssues
  rw [List.flatMap_eq_nil_iff]
  intro p hp
  rw [List.filterMap_eq_nil_iff]
  intro dep hdep
  rw [if_pos (hresolv p hp dep hdep)]

/-- C7: on a dependency record with a cycle, `validateDag` scores 0 and its
issue list starts with a single `dependency_dag`-located error naming a
genuine cycle path (first vertex repeated at the end, every consecutive
pair a dependency edge); on an acyclic record whose every dependency target
is a key, it returns score 100 with no issues. -/
theorem validateDag_cycle_and_acyclic (dag : List (String × List String)) :
    (HasCycle dag →
      (validateDag dag).score = 0 ∧
      ∃ c, isCyclePath dag c ∧
        (validateDag dag).issues.head? = some (cycleIssueOf c) ∧
        ((validateDag dag).issues.filter
          (fun i => decide (i.location = "dependency_dag"))).length = 1) ∧
    (¬ HasCycle dag → Resolvable dag →
      validateDag dag = { score := 100, issues := [] }) := by
  have hu := dagUniverse_univOk dag
  have hnd : (dagUniverse dag).Nodup := setOfList_nodup _
  have hinv0 : InvB dag ⟨[], []⟩ := by
    intro u hb
    obtain ⟨huv, -⟩ := hb
    simp at huv
  have hkeys : ∀ k ∈ dagKeys dag, k ∈ dagUniverse dag := fun k hk =>
    mem_setOfList (List.mem_append.mpr (Or.inl hk))
  have hscan := dagCycleScan_spec dag (dagUniverse dag) ((dagUniverse dag).length + 1)
    hu hnd (by omega) (dagKeys dag) ⟨[], []⟩ hkeys rfl hinv0
  rcases hres : dagCycleScan dag ((dagUniverse dag).length + 1) (dagKeys dag) ⟨[], []⟩
      with - | c
  · -- no cycle found by the scan
    constructor
    · intro hcyc
      obtain ⟨v, hw⟩ := hcyc
      exact absurd hw (hscan.2 hres v (dagWalk_head_key hw))
    · intro _ hresolv
      simp only [validateDag]
      rw [hres, missingDepIssues_resolvable dag hresolv]
      simp [errorCount]
  · -- the scan returned a cycle
    have hcp : isCyclePath dag c := hscan.1 c hres
    have hiss : (validateDag dag).issues = cycleIssueOf c :: missingDepIssues dag := by
      simp only [validateDag]
      rw [hres]
      simp
    have herr : errorCount (cycleIssueOf c :: missingDepIssues dag) ≠ 0 := by
      unfold errorCount
      rw [List.filter_cons]
      simp [cycleIssueOf]
    constructor
    · intro _
      refine ⟨?_, c, hcp, ?_, ?_⟩
      · simp only [validateDag]
        rw [hres]
        simp only [List.singleton_append]
        rw [if_neg herr]
      · rw [hiss]
        rfl
      · rw [hiss, List.filter_cons]
        have hd : (decide ((cycleIssueOf c).location = "dependency_dag")) = true := by
          simp [cycleIssueOf]
        rw [hd]
        simp only [if_true, List.length_cons]
        have hz : (List.filter (fun i => decide (i.location = "dependency_dag"))
            (missingDepIssues dag)).length = 0 := by
          rw [List.length_eq_zero, List.filter_eq_nil_iff]
          intro i hi
          simpa using missingDepIssues_loc dag i hi
        omega
    · intro hnc _
      exact absurd (hasCycle_of_cyclePath hcp) hnc

/-- The two directions of the DAG theorem at the spec's own examples: the
three-node cycle scores 0 with the single issue naming the cycle
A → B → C → A, and the resolvable acyclic record scores 100 with no
issues. -/
theorem validateDag_cycle_and_acyclic_witness :
    ((validateDag [("A", ["B"]), ("B", ["C"]), ("C", ["A"])]).score = 0 ∧
      (validateDag [("A", ["B"]), ("B", ["C"]), ("C", ["A"])]).issues =
        [cycleIssueOf ["A", "B", "C", "A"]]) ∧
    validateDag [("S1", ([] : List String)), ("S2", ["S1"]), ("S3", ["S2", "S1"])] =
      { score := 100, issues := [] } := by
  refine ⟨⟨?_, ?_⟩, ?_⟩
  · exact ((validateDag_cycle_and_acyclic _).1
      ⟨"A", @DagWalk.cons _ "A" "B" "A" (by decide)
        (@DagWalk.cons _ "B" "C" "A" (by decide) (@DagWalk.single _ "C" "A" (by decide)))⟩).1
  · rfl
  · exact (validateDag_cycle_and_acyclic _).2
      (rank_no_cycle (fun s => if s = "S3" then 2 else if s = "S2" then 1 else 0) (by decide))
      (by unfold Resolvable; decide)

end Specky
